import Mathlib

/-!
Verification of the OpenFA SH record decoder (src/libs/sh/src/lib.rs),
the i386 instruction disassembler (src/libs/i386/src/lib.rs), and the
shape-animation interpreter contract (caller in
src/apps/show-sh-raw/src/raw_sh_renderer.rs).

Conventions of the shallow embedding:
  * Byte buffers are `List Nat` (each element a byte value).
  * Fallible Rust functions returning `Result` are modelled as `Option`
    (for the sh decoder, where every internal failure aborts the whole
    decode) or `Except` (for the disassembler, whose error variants are
    distinguished by the claims).
  * Rust panics (assert!, unreachable!, out-of-range slice indexing,
    Option::unwrap on None) abort the program; they are modelled as
    `none` / a `fault` error value.  Reads through `mem::transmute`d
    slices that touch bytes beyond the underlying buffer are undefined
    behaviour in the source; they are modelled as failing reads.
  * Little-endian multi-byte reads are composed explicitly from bytes.
-/

namespace Sh

/-- Checked byte read: `code[i]` when in bounds. -/
def byteAt (l : List Nat) (i : Nat) : Option Nat := l.get? i

/-- Little-endian u16 read of the two bytes at `i`, `i+1`. -/
def leU16 (l : List Nat) (i : Nat) : Option Nat := do
  let lo ← l.get? i
  let hi ← l.get? (i + 1)
  some (lo + 256 * hi)

/-- FacetFlags bit: HAVE_MATERIAL = 0b0100_0000_0000_0000. -/
def HAVE_MATERIAL : Nat := 0x4000

/-- FacetFlags bit: HAVE_TEXCOORDS = 0b0000_0100_0000_0000. -/
def HAVE_TEXCOORDS : Nat := 0x0400

/-- FacetFlags bit: USE_SHORT_INDICES = 0b0000_0000_0000_0100. -/
def USE_SHORT_INDICES : Nat := 0x0004

/-- FacetFlags bit: USE_SHORT_MATERIAL = 0b0000_0000_0000_0010. -/
def USE_SHORT_MATERIAL : Nat := 0x0002

/-- FacetFlags bit: USE_BYTE_TEXCOORDS = 0b0000_0000_0000_0001. -/
def USE_BYTE_TEXCOORDS : Nat := 0x0001

/-- The `Facet` record (struct Facet).  `flags` holds the raw u16 flag word. -/
structure Facet where
  length : Nat
  flags : Nat
  indices : List Nat
  max_index : Nat
  min_index : Nat
deriving DecidableEq, Repr

/-- Facet::from_bytes.  Mirrors src/libs/sh/src/lib.rs lines 366-406:
tag byte 0xFC, big-endian-packed flag word from bytes 1,2 with asserted
zero nibble, flag-dependent material/index/texcoord widths, record
length computed before the indices are read, indices read either as u16
pairs or single bytes, and max/min obtained by `unwrap` (a panic, hence
`none`, when the index list is empty). -/
def Facet.from_bytes (data : List Nat) : Option Facet :=
  match data.get? 0, data.get? 1, data.get? 2 with
  | some b0, some b1, some b2 =>
    if b0 = 0xFC then
      let flagsWord := (b1 <<< 8) ||| b2
      if flagsWord &&& 0x00F0 = 0 then
        let material_size :=
          if flagsWord &&& HAVE_MATERIAL ≠ 0 then
            (if flagsWord &&& USE_SHORT_MATERIAL ≠ 0 then 11 else 14)
          else 2
        let index_size := if flagsWord &&& USE_SHORT_INDICES ≠ 0 then 2 else 1
        let have_tc := flagsWord &&& HAVE_TEXCOORDS ≠ 0
        let tc_size := if flagsWord &&& USE_BYTE_TEXCOORDS ≠ 0 then 1 else 2
        match data.get? (3 + material_size) with
        | none => none
        | some index_count =>
          let length := 3 + material_size + 1 + index_count * index_size +
            (if have_tc then index_count * 2 * tc_size else 0)
          let index_base := data.drop (3 + material_size + 1)
          let indicesOpt :=
            if flagsWord &&& USE_SHORT_INDICES ≠ 0 then
              (List.range index_count).mapM (fun i => leU16 index_base (2 * i))
            else
              (List.range index_count).mapM (fun i => index_base.get? i)
          match indicesOpt with
          | none => none
          | some [] => none
          | some (x :: xs) =>
            some ⟨length, flagsWord, x :: xs, xs.foldl Nat.max x, xs.foldl Nat.min x⟩
      else none
    else none
  | _, _, _ => none

/-- Facet::size returns the stored computed length. -/
def Facet.size (f : Facet) : Nat := f.length

/-- material_size as a function of the flag word (the claim's formula). -/
def material_size_of (flags : Nat) : Nat :=
  if flags &&& HAVE_MATERIAL ≠ 0 then
    (if flags &&& USE_SHORT_MATERIAL ≠ 0 then 11 else 14)
  else 2

/-- index_size as a function of the flag word (the claim's formula). -/
def index_size_of (flags : Nat) : Nat :=
  if flags &&& USE_SHORT_INDICES ≠ 0 then 2 else 1

/-- tc_size as a function of the flag word (the claim's formula). -/
def tc_size_of (flags : Nat) : Nat :=
  if flags &&& USE_BYTE_TEXCOORDS ≠ 0 then 1 else 2

/-- Continuation byte predicate of UTF-8 validation (0x80..=0xBF). -/
def isCont (b : Nat) : Bool := 0x80 ≤ b && b ≤ 0xBF

/-- UTF-8 validity of a byte sequence, as enforced by str::from_utf8 in
read_name (RFC 3629: no overlong forms, no surrogates, max U+10FFFF). -/
def validUtf8 : List Nat → Bool
  | [] => true
  | b :: rest =>
    if b ≤ 0x7F then validUtf8 rest
    else if 0xC2 ≤ b && b ≤ 0xDF then
      match rest with
      | c1 :: r => isCont c1 && validUtf8 r
      | _ => false
    else if b = 0xE0 then
      match rest with
      | c1 :: c2 :: r => (0xA0 ≤ c1 && c1 ≤ 0xBF) && isCont c2 && validUtf8 r
      | _ => false
    else if (0xE1 ≤ b && b ≤ 0xEC) || b = 0xEE || b = 0xEF then
      match rest with
      | c1 :: c2 :: r => isCont c1 && isCont c2 && validUtf8 r
      | _ => false
    else if b = 0xED then
      match rest with
      | c1 :: c2 :: r => (0x80 ≤ c1 && c1 ≤ 0x9F) && isCont c2 && validUtf8 r
      | _ => false
    else if b = 0xF0 then
      match rest with
      | c1 :: c2 :: c3 :: r => (0x90 ≤ c1 && c1 ≤ 0xBF) && isCont c2 && isCont c3 && validUtf8 r
      | _ => false
    else if 0xF1 ≤ b && b ≤ 0xF3 then
      match rest with
      | c1 :: c2 :: c3 :: r => isCont c1 && isCont c2 && isCont c3 && validUtf8 r
      | _ => false
    else if b = 0xF4 then
      match rest with
      | c1 :: c2 :: c3 :: r => (0x80 ≤ c1 && c1 ≤ 0x8F) && isCont c2 && isCont c3 && validUtf8 r
      | _ => false
    else false

/-- read_name: bytes up to the first NUL, required to be valid UTF-8.
Missing terminator or invalid UTF-8 is a decode error (`none`).  The
name is kept as its byte sequence (same length as the Rust String). -/
def read_name (n : List Nat) : Option (List Nat) :=
  match n.findIdx? (fun c => c == 0) with
  | none => none
  | some end_offset =>
    let nameBytes := n.take end_offset
    if validUtf8 nameBytes then some nameBytes else none

/-- TextureRef record (tag 0xE2, fixed size 16). -/
structure TextureRef where
  filename : List Nat
deriving DecidableEq, Repr

/-- TextureRef::from_bytes: tag byte 0xE2, zero byte, then a
NUL-terminated name inside data[2..16] (whole 16-byte slice required). -/
def TextureRef.from_bytes (data : List Nat) : Option TextureRef :=
  match data.get? 0, data.get? 1 with
  | some b0, some b1 =>
    if b0 = 0xE2 ∧ b1 = 0 ∧ 16 ≤ data.length then
      match read_name ((data.take 16).drop 2) with
      | some nm => some ⟨nm⟩
      | none => none
    else none
  | _, _ => none

/-- TextureRef::size = 16. -/
def TextureRef.size (_ : TextureRef) : Nat := 16

/-- SourceRef record (tag 0x42, variable size). -/
structure SourceRef where
  unk0 : Nat
  source : List Nat
deriving DecidableEq, Repr

/-- SourceRef::from_bytes: tag byte 0x42, then unk0 byte, then a
NUL-terminated name in data[2..]. -/
def SourceRef.from_bytes (data : List Nat) : Option SourceRef :=
  match data.get? 0, data.get? 1 with
  | some b0, some b1 =>
    if b0 = 0x42 then
      match read_name (data.drop 2) with
      | some nm => some ⟨b1, nm⟩
      | none => none
    else none
  | _, _ => none

/-- SourceRef::size = 2 + source.len() + 1. -/
def SourceRef.size (r : SourceRef) : Nat := 2 + r.source.length + 1

/-- Sign extension of a little-endian u16 value (`as i16`); the Rust
code converts the result to f32, which is exact for i16, so vertex
components are modelled as Int. -/
def s2i16 (n : Nat) : Int :=
  if n % 65536 < 32768 then (n % 65536 : Nat) else (n % 65536 : Nat) - 65536

/-- VertexBuf record (tag 0x82, variable size). -/
structure VertexBuf where
  unk0 : Nat
  verts : List (Int × Int × Int)
deriving DecidableEq, Repr

/-- VertexBuf::from_bytes: tag 0x82, zero byte, vertex count u16 at
offset 2 (slice data[2..6] must exist), unk0 u16 at offset 6 (head[2]
of the transmuted slice reads bytes 6,7), then nverts sign-extended
i16 triples starting at offset 6. -/
def VertexBuf.from_bytes (data : List Nat) : Option VertexBuf :=
  match data.get? 0, data.get? 1 with
  | some b0, some b1 =>
    if b0 = 0x82 ∧ b1 = 0 ∧ 6 ≤ data.length then
      match leU16 data 2, leU16 data 6 with
      | some nverts, some unk0 =>
        match (List.range nverts).mapM (fun i =>
            match leU16 data (6 + 6 * i), leU16 data (6 + 6 * i + 2), leU16 data (6 + 6 * i + 4) with
            | some x, some y, some z => some (s2i16 x, s2i16 y, s2i16 z)
            | _, _, _ => none) with
        | some vs => some ⟨unk0, vs⟩
        | none => none
      | _, _ => none
    else none
  | _, _ => none

/-- VertexBuf::size = 6 + verts.len() * 6. -/
def VertexBuf.size (r : VertexBuf) : Nat := 6 + r.verts.length * 6

/-- X86Code record (tag 0xF0): a raw x86 byte span delimited by the
RET-and-plausible-next-tag heuristic. -/
structure X86Code where
  code : List Nat
deriving DecidableEq, Repr

/-- The X86Code scan loop: advance until a 0xC3 (RET) byte whose
following little-endian u16 is not one of the known fast-forward
values, skipping 5 bytes after 0x68 (push dword) and 6 after 0x81
(op reg imm32).  Reads beyond the buffer through the transmuted u16
slice, and the unchecked `buf[end]` read after fast-forwarding, are
modelled as failures (`none`).  Fuel-indexed; the wrapper passes
enough fuel since every iteration advances. -/
def X86Code.scan : Nat → List Nat → Nat → Option Nat
  | 0, _, _ => none
  | fuel + 1, buf, e =>
    if buf.length ≤ e then some e
    else
      let b := (buf.get? e).getD 0
      if b = 0xC3 then
        match buf.get? (e + 1), buf.get? (e + 2) with
        | some lo, some hi =>
          let w := lo + 256 * hi
          if w = 0x0048 ∨ w = 0x0000 ∨ w = 0x0566 ∨ w = 0x05EB ∨ w = 0xE850 ∨ w = 0x8966 then
            match buf.get? (e + 3) with
            | none => none
            | some c =>
              if c = 0x68 then X86Code.scan fuel buf (e + 3 + 5)
              else if c = 0x81 then X86Code.scan fuel buf (e + 3 + 6)
              else X86Code.scan fuel buf (e + 3 + 1)
          else some (e + 1)
        | _, _ => none
      else
        if b = 0x68 then X86Code.scan fuel buf (e + 5)
        else if b = 0x81 then X86Code.scan fuel buf (e + 6)
        else X86Code.scan fuel buf (e + 1)

/-- X86Code::from_bytes: tag 0xF0, zero byte, then the scanned span of
data[2..].  A scan end past the buffer makes the `buf[0..end]` slice
panic (`none`). -/
def X86Code.from_bytes (data : List Nat) : Option X86Code :=
  match data.get? 0, data.get? 1 with
  | some b0, some b1 =>
    if b0 = 0xF0 ∧ b1 = 0 then
      let buf := data.drop 2
      match X86Code.scan (buf.length + 1) buf 0 with
      | none => none
      | some e => if e ≤ buf.length then some ⟨buf.take e⟩ else none
    else none
  | _, _ => none

/-- X86Code::size = code.len() + 2. -/
def X86Code.size (r : X86Code) : Nat := r.code.length + 2

/-- UnkCE record (tag 0xCE, fixed size 40, zero byte required). -/
structure UnkCE where
  data : List Nat
deriving DecidableEq, Repr

/-- UnkCE::from_bytes: tag 0xCE, zero byte, 38 payload bytes. -/
def UnkCE.from_bytes (data : List Nat) : Option UnkCE :=
  match data.get? 0, data.get? 1 with
  | some b0, some b1 =>
    if b0 = 0xCE ∧ b1 = 0 ∧ 40 ≤ data.length then some ⟨(data.take 40).drop 2⟩ else none
  | _, _ => none

/-- UnkCE::size = 40. -/
def UnkCE.size (_ : UnkCE) : Nat := 40

/-- UnkBC record (tag 0xBC, length selected by the flag byte). -/
structure UnkBC where
  flags : Nat
  unk0 : Nat
  length : Nat
  data : List Nat
deriving DecidableEq, Repr

/-- UnkBC::from_bytes: flags at data[2], unk0 at data[3], length from
the flags table (0x96 -> 8, 0x72 -> 6, 0x68 -> 10, 0x08 -> 6, anything
else is a decode error), payload data[4..length]. -/
def UnkBC.from_bytes (data : List Nat) : Option UnkBC :=
  match data.get? 0, data.get? 2, data.get? 3 with
  | some b0, some flags, some unk0 =>
    if b0 = 0xBC then
      match (if flags = 0x96 then some 8
        else if flags = 0x72 then some 6
        else if flags = 0x68 then some 10
        else if flags = 0x08 then some 6
        else none : Option Nat) with
      | none => none
      | some length =>
        if length ≤ data.length then some ⟨flags, unk0, length, (data.take length).drop 4⟩
        else none
    else none
  | _, _, _ => none

/-- UnkBC::size = the flag-selected length. -/
def UnkBC.size (r : UnkBC) : Nat := r.length

/-- Unk40 record.  Note: the source assigns Unk40::MAGIC = 0xBC (a
copy-paste slip), so the Unk40 arm of the dispatch chain is dead code
behind the UnkBC arm; both are kept faithfully. -/
structure Unk40 where
  count : Nat
  length : Nat
  data : List Nat
deriving DecidableEq, Repr

/-- Unk40::from_bytes: count u16 at offset 2, then count u16 words. -/
def Unk40.from_bytes (data : List Nat) : Option Unk40 :=
  match data.get? 0, data.get? 1 with
  | some b0, some b1 =>
    if b0 = 0xBC ∧ b1 = 0 then
      match leU16 data 2 with
      | none => none
      | some count =>
        match (List.range count).mapM (fun i => leU16 data (4 + 2 * i)) with
        | some ws => some ⟨count, 4 + count * 2, ws⟩
        | none => none
    else none
  | _, _ => none

/-- Unk40::size = 4 + count * 2. -/
def Unk40.size (r : Unk40) : Nat := r.length

/-- UnkF6 record (tag 0xF6, fixed size 7, no zero byte). -/
structure UnkF6 where
  data : List Nat
deriving DecidableEq, Repr

/-- UnkF6::from_bytes: tag 0xF6 then 6 payload bytes data[1..7]. -/
def UnkF6.from_bytes (data : List Nat) : Option UnkF6 :=
  match data.get? 0 with
  | some b0 => if b0 = 0xF6 ∧ 7 ≤ data.length then some ⟨(data.take 7).drop 1⟩ else none
  | none => none

/-- UnkF6::size = 7. -/
def UnkF6.size (_ : UnkF6) : Nat := 7

/-- Unk38 record (tag 0x38, fixed size 3, no zero byte). -/
structure Unk38 where
  data : List Nat
deriving DecidableEq, Repr

/-- Unk38::from_bytes: tag 0x38 then 2 payload bytes data[1..3]. -/
def Unk38.from_bytes (data : List Nat) : Option Unk38 :=
  match data.get? 0 with
  | some b0 => if b0 = 0x38 ∧ 3 ≤ data.length then some ⟨(data.take 3).drop 1⟩ else none
  | none => none

/-- Unk38::size = 3. -/
def Unk38.size (_ : Unk38) : Nat := 3

/-- TrailerUnknown: swallows every remaining byte. -/
structure TrailerUnknown where
  data : List Nat
deriving DecidableEq, Repr

/-- TrailerUnknown::from_bytes never fails. -/
def TrailerUnknown.from_bytes (data : List Nat) : Option TrailerUnknown := some ⟨data⟩

/-- TrailerUnknown::size = data.len(). -/
def TrailerUnknown.size (r : TrailerUnknown) : Nat := r.data.length

/-- One record of the opaque_instr! macro family (Header, Unk46, ...,
Unk06): tag byte, a 0 or 0xFF byte, then SIZE-2 payload bytes. -/
structure FixedRec where
  data : List Nat
deriving DecidableEq, Repr

/-- from_bytes generated by opaque_instr!, parametrised on the MAGIC
and SIZE constants exactly as the macro is. -/
def FixedRec.from_bytes (magic sz : Nat) (data : List Nat) : Option FixedRec :=
  match data.get? 0, data.get? 1 with
  | some b0, some b1 =>
    if b0 = magic ∧ (b1 = 0 ∨ b1 = 0xFF) ∧ sz ≤ data.length then
      some ⟨(data.take sz).drop 2⟩
    else none
  | _, _ => none

/-- The sh record union (enum Instr).  All opaque_instr! variants are
folded into the `fixed` constructor carrying their tag. -/
inductive Instr where
  | fixed (tag : Nat) (r : FixedRec)
  | unkCE (r : UnkCE)
  | unkBC (r : UnkBC)
  | unk40 (r : Unk40)
  | unkF6 (r : UnkF6)
  | unk38 (r : Unk38)
  | trailerUnknown (r : TrailerUnknown)
  | textureRef (r : TextureRef)
  | sourceRef (r : SourceRef)
  | vertexBuf (r : VertexBuf)
  | facet (r : Facet)
  | x86Code (r : X86Code)
deriving DecidableEq, Repr

/-- A decoded record together with its starting byte offset in the
code buffer and its reported size() (the amount the cursor advances). -/
structure SecRec where
  offset : Nat
  size : Nat
  instr : Instr
deriving DecidableEq, Repr

/-- One step outcome of the _read_sections dispatch: skip a 0x1E byte,
consume a record, consume the trailer and stop, or abort. -/
inductive Step where
  | skip
  | record (sz : Nat) (instr : Instr)
  | trailer (sz : Nat) (instr : Instr)
  | fail
deriving DecidableEq, Repr

/-- Dispatch arm for one opaque_instr! record type. -/
def fixedStep (magic sz : Nat) (rest : List Nat) : Step :=
  match FixedRec.from_bytes magic sz rest with
  | some r => .record sz (.fixed magic r)
  | none => .fail

/-- Dispatch arm for UnkCE. -/
def parseUnkCE (rest : List Nat) : Step :=
  match UnkCE.from_bytes rest with
  | some r => .record (UnkCE.size r) (.unkCE r)
  | none => .fail

/-- Dispatch arm for UnkBC. -/
def parseUnkBC (rest : List Nat) : Step :=
  match UnkBC.from_bytes rest with
  | some r => .record (UnkBC.size r) (.unkBC r)
  | none => .fail

/-- Dispatch arm for UnkF6. -/
def parseUnkF6 (rest : List Nat) : Step :=
  match UnkF6.from_bytes rest with
  | some r => .record (UnkF6.size r) (.unkF6 r)
  | none => .fail

/-- Dispatch arm for Unk38. -/
def parseUnk38 (rest : List Nat) : Step :=
  match Unk38.from_bytes rest with
  | some r => .record (Unk38.size r) (.unk38 r)
  | none => .fail

/-- Dispatch arm for Unk40 (dead in practice: its MAGIC is also 0xBC). -/
def parseUnk40 (rest : List Nat) : Step :=
  match Unk40.from_bytes rest with
  | some r => .record (Unk40.size r) (.unk40 r)
  | none => .fail

/-- Dispatch arm for TextureRef. -/
def parseTextureRef (rest : List Nat) : Step :=
  match TextureRef.from_bytes rest with
  | some r => .record (TextureRef.size r) (.textureRef r)
  | none => .fail

/-- Dispatch arm for SourceRef. -/
def parseSourceRef (rest : List Nat) : Step :=
  match SourceRef.from_bytes rest with
  | some r => .record (SourceRef.size r) (.sourceRef r)
  | none => .fail

/-- Dispatch arm for VertexBuf. -/
def parseVertexBuf (rest : List Nat) : Step :=
  match VertexBuf.from_bytes rest with
  | some r => .record (VertexBuf.size r) (.vertexBuf r)
  | none => .fail

/-- Dispatch arm for Facet. -/
def parseFacet (rest : List Nat) : Step :=
  match Facet.from_bytes rest with
  | some r => .record (Facet.size r) (.facet r)
  | none => .fail

/-- Dispatch arm for X86Code. -/
def parseX86Code (rest : List Nat) : Step :=
  match X86Code.from_bytes rest with
  | some r => .record (X86Code.size r) (.x86Code r)
  | none => .fail

/-- The else-if dispatch chain of CpuShape::_read_sections as a
first-match table, one entry per `else if code[0] == X::MAGIC` arm in
source order.  A first-match lookup over this list is semantically the
if/else-if cascade; the duplicated 0xBC key preserves the dead Unk40
arm (its MAGIC constant is also 0xBC in the source). -/
def dispatchTable : List (Nat × (List Nat → Step)) :=
  [(0xFF, fixedStep 0xFF 14), (0x46, fixedStep 0x46 2), (0xB2, fixedStep 0xB2 2),
   (0x12, fixedStep 0x12 4), (0x48, fixedStep 0x48 4), (0xAC, fixedStep 0xAC 4),
   (0xB8, fixedStep 0xB8 4), (0xCA, fixedStep 0xCA 4), (0xD0, fixedStep 0xD0 4),
   (0xDA, fixedStep 0xDA 4), (0xE0, fixedStep 0xE0 4), (0xF2, fixedStep 0xF2 4),
   (0xA6, fixedStep 0xA6 6), (0xC8, fixedStep 0xC8 8), (0x66, fixedStep 0x66 10),
   (0x78, fixedStep 0x78 12), (0x7A, fixedStep 0x7A 10), (0xC4, fixedStep 0xC4 16),
   (0x0C, fixedStep 0x0C 17), (0x0E, fixedStep 0x0E 17), (0x10, fixedStep 0x10 17),
   (0x6C, fixedStep 0x6C 13), (0x06, fixedStep 0x06 21),
   (0xCE, parseUnkCE), (0xBC, parseUnkBC), (0xF6, parseUnkF6), (0x38, parseUnk38),
   (0xBC, parseUnk40), (0xE2, parseTextureRef), (0x42, parseSourceRef),
   (0x82, parseVertexBuf), (0xFC, parseFacet), (0xF0, parseX86Code)]

/-- The tag dispatch of CpuShape::_read_sections on the buffer suffix
at the cursor: first matching arm, otherwise the final else arm that
consumes the whole remainder as TrailerUnknown and stops the loop. -/
def recStepAt (b : Nat) (rest : List Nat) : Step :=
  match dispatchTable.find? (fun e => e.1 == b) with
  | some e => e.2 rest
  | none =>
    match TrailerUnknown.from_bytes rest with
    | some r => .trailer (TrailerUnknown.size r) (.trailerUnknown r)
    | none => .fail

/-- One iteration of the _read_sections loop at `offset`: the special
0x1E skip, otherwise the tag dispatch. -/
def stepAt (code : List Nat) (offset : Nat) : Step :=
  let rest := code.drop offset
  let b := rest.headD 0
  if b = 0x1E then .skip else recStepAt b rest

/-- The _read_sections loop: `assert!(offset < pe.code.len())` at the
top of every iteration (its failure is a panic, modelled `none`),
dispatch on the tag byte, advance the cursor by the record's size();
the trailer arm pushes its record and breaks. -/
def goReadSections (code : List Nat) : Nat → Nat → Option (List SecRec)
  | 0, _ => none
  | fuel + 1, offset =>
    if offset < code.length then
      match stepAt code offset with
      | .skip => goReadSections code fuel (offset + 1)
      | .record sz instr =>
        (goReadSections code fuel (offset + sz)).map (fun tl => ⟨offset, sz, instr⟩ :: tl)
      | .trailer sz instr => some [⟨offset, sz, instr⟩]
      | .fail => none
    else none

/-- CpuShape::_read_sections on a code buffer.  Every loop iteration
advances the cursor by at least one byte, so length+1 fuel is enough. -/
def readSections (code : List Nat) : Option (List SecRec) :=
  goReadSections code (code.length + 1) 0

/-- The set of tag bytes recognized by the dispatch chain (including
the skipped 0x1E filler byte). -/
def knownTags : List Nat :=
  [0x1E, 0xFF, 0x46, 0xB2, 0x12, 0x48, 0xAC, 0xB8, 0xCA, 0xD0, 0xDA, 0xE0, 0xF2,
   0xA6, 0xC8, 0x66, 0x78, 0x7A, 0xC4, 0x0C, 0x0E, 0x10, 0x6C, 0x06, 0xCE, 0xBC,
   0xF6, 0x38, 0xE2, 0x42, 0x82, 0xFC, 0xF0]

/-- Offset-chaining of a decoded record list starting at cursor `o`:
each record starts at or after the cursor, any bytes in between are
exactly the skipped 0x1E fillers, record sizes are positive, and the
cursor then advances by the record's size. -/
def Chained (code : List Nat) : Nat → List SecRec → Prop
  | _, [] => True
  | o, r :: rest =>
    o ≤ r.offset ∧ (∀ j, o ≤ j → j < r.offset → code.get? j = some 0x1E) ∧
    0 < r.size ∧ Chained code (r.offset + r.size) rest

end Sh

namespace I386

/-- The phases of DisassemblyError::TooShort, one per ensure! site. -/
inductive Phase where
  | readOp
  | decodeOpExt
  | opReadModrm
  | opRead1
  | opRead2
  | opRead4
deriving DecidableEq, Repr

/-- DisassemblyError, plus a `fault` value modelling the panics
(unreachable!/assert!) reachable in Operand decoding. -/
inductive DisasmError where
  | unknownOpcode (ip : Nat) (op : Nat × Nat)
  | tooShort (phase : Phase)
  | fault
deriving DecidableEq, Repr

/-- enum Reg. -/
inductive Reg where
  | AX
  | EAX
  | ECX
  | EDX
  | EBX
  | ESP
  | EBP
  | ESI
  | EDI
deriving DecidableEq, Repr

/-- enum FlagKind (only ZF is live). -/
inductive FlagKind where
  | ZF
deriving DecidableEq, Repr

/-- enum ConditionCode. -/
inductive ConditionCode where
  | check (f : FlagKind) (v : Bool)
deriving DecidableEq, Repr

/-- enum Memonic (Return is spelled ret). -/
inductive Memonic where
  | add
  | call
  | compare
  | jcc (cc : ConditionCode)
  | move
  | pop
  | push
  | ret
  | sar
deriving DecidableEq, Repr

/-- enum AddressingMethod (Imp is spelled imp). -/
inductive AddressingMethod where
  | E
  | G
  | I
  | J
  | O
  | Z
  | imp
deriving DecidableEq, Repr

/-- enum OperandType. -/
inductive OperandType where
  | bs
  | v
  | vs
  | eAX
  | const1
deriving DecidableEq, Repr

/-- struct MemRef. -/
structure MemRef where
  displacement : Int
  base : Option Reg
  index : Option Reg
  scale : Nat
deriving DecidableEq, Repr

/-- MemRef::base_plus_displacement. -/
def MemRef.base_plus_displacement (base : Reg) (displacement : Int) : MemRef :=
  ⟨displacement, some base, none, 1⟩

/-- MemRef::displacement. -/
def MemRef.displacement_only (displacement : Int) : MemRef :=
  ⟨displacement, none, none, 1⟩

/-- enum Operand. -/
inductive Operand where
  | imm32 (v : Nat)
  | imm32s (v : Int)
  | imm8 (v : Nat)
  | memory (m : MemRef)
  | register (r : Reg)
deriving DecidableEq, Repr

/-- struct OperandDef. -/
structure OperandDef where
  method : AddressingMethod
  ty : OperandType
deriving DecidableEq, Repr

/-- struct OpCodeDef. -/
structure OpCodeDef where
  memonic : Memonic
  operands : List OperandDef
deriving DecidableEq, Repr

/-- PREFIX_CODES: the recognized legacy prefix bytes. -/
def PREFIX_CODES : List Nat :=
  [0x26, 0x2E, 0x36, 0x3E, 0x64, 0x65, 0x66, 0x67, 0x9B, 0xF0, 0xF2, 0xF3]

/-- USE_REG_OPCODES: opcodes whose ModR/M reg field selects a variant. -/
def USE_REG_OPCODES : List Nat :=
  [0x80, 0x81, 0x82, 0x83, 0x8F, 0xC0, 0xC1, 0xC6, 0xC7, 0xD0, 0xD1, 0xD2, 0xD3,
   0xD8, 0xD9, 0xDA, 0xDB, 0xDC, 0xDD, 0xDE, 0xDF, 0xF6, 0xF7, 0xFE, 0xFF]

/-- OPCODE_TABLE as the (opcode, extension) -> descriptor association
list built by the lazy_static initializer (keys are distinct, so
first-match lookup equals HashMap lookup). -/
def OPCODE_TABLE : List ((Nat × Nat) × OpCodeDef) :=
  [((0x58, 0), ⟨.pop, [⟨.Z, .v⟩]⟩),
   ((0x68, 0), ⟨.push, [⟨.I, .vs⟩]⟩),
   ((0x75, 0), ⟨.jcc (.check .ZF false), [⟨.J, .bs⟩]⟩),
   ((0x81, 0), ⟨.add, [⟨.E, .v⟩, ⟨.I, .v⟩]⟩),
   ((0x83, 7), ⟨.compare, [⟨.E, .v⟩, ⟨.I, .bs⟩]⟩),
   ((0x89, 0), ⟨.move, [⟨.E, .v⟩, ⟨.G, .v⟩]⟩),
   ((0xA1, 0), ⟨.move, [⟨.imp, .eAX⟩, ⟨.O, .v⟩]⟩),
   ((0xC3, 0), ⟨.ret, []⟩),
   ((0xD1, 7), ⟨.sar, [⟨.E, .v⟩, ⟨.imp, .const1⟩]⟩),
   ((0xE8, 0), ⟨.call, [⟨.J, .v⟩]⟩)]

/-- OPCODE_TABLE lookup (HashMap::get). -/
def tableGet (k : Nat × Nat) : Option OpCodeDef :=
  (OPCODE_TABLE.find? (fun e => e.1 == k)).map (fun e => e.2)

/-- struct OpPrefix. -/
structure OpPfx where
  toggle_address_size : Bool
  toggle_operand_size : Bool
deriving DecidableEq, Repr

/-- OpPrefix::default. -/
def OpPfx.default : OpPfx := ⟨false, false⟩

/-- OpPrefix::apply: only 0x66 and 0x67 are handled; every other byte
hits `unreachable!()` (a panic, modelled as `none`). -/
def OpPfx.apply (p : OpPfx) (b : Nat) : Option OpPfx :=
  if b = 0x66 then some { p with toggle_operand_size := true }
  else if b = 0x67 then some { p with toggle_address_size := true }
  else none

/-- The prefix-consuming loop of OpPrefix::from_bytes, walking the
buffer suffix at the cursor (`while *ip < code.len() && PREFIX_CODES
.contains(&code[*ip])`); the cursor is carried alongside. -/
def pfxScan : OpPfx → List Nat → Nat → Option (OpPfx × Nat)
  | p, [], ip => some (p, ip)
  | p, b :: rest, ip =>
    if b ∈ PREFIX_CODES then
      match OpPfx.apply p b with
      | some p2 => pfxScan p2 rest (ip + 1)
      | none => none
    else some (p, ip)

/-- OpPrefix::from_bytes: consume bytes while they are in PREFIX_CODES,
applying each one. -/
def OpPfx.from_bytes (code : List Nat) (p : OpPfx) (ip : Nat) : Option (OpPfx × Nat) :=
  pfxScan p (code.drop ip) ip

/-- Result type of the disassembler. -/
abbrev DisResult (α : Type) := Except DisasmError α

/-- Decidable equality of disassembler results, so concrete decodes can
be settled by `decide`. -/
instance instDecEqExcept {ε α : Type} [DecidableEq ε] [DecidableEq α] :
    DecidableEq (Except ε α) := fun x y =>
  match x, y with
  | .ok a, .ok b =>
    if h : a = b then .isTrue (by rw [h]) else .isFalse (fun hh => h (Except.ok.inj hh))
  | .error a, .error b =>
    if h : a = b then .isTrue (by rw [h]) else .isFalse (fun hh => h (Except.error.inj hh))
  | .ok _, .error _ => .isFalse (fun hh => Except.noConfusion hh)
  | .error _, .ok _ => .isFalse (fun hh => Except.noConfusion hh)

/-- Operand::read1: `ensure!(code.len() > *ip)` then read one byte. -/
def Operand.read1 (code : List Nat) (ip : Nat) : DisResult (Nat × Nat) :=
  if code.length > ip then .ok ((code.get? ip).getD 0, ip + 1)
  else .error (.tooShort .opRead1)

/-- Operand::read2: `ensure!(code.len() > *ip + 1)` then read a
little-endian u16. -/
def Operand.read2 (code : List Nat) (ip : Nat) : DisResult (Nat × Nat) :=
  if code.length > ip + 1 then
    .ok ((code.get? ip).getD 0 + 256 * (code.get? (ip + 1)).getD 0, ip + 2)
  else .error (.tooShort .opRead2)

/-- Operand::read4: `ensure!(code.len() > *ip + 3)` then read a
little-endian u32. -/
def Operand.read4 (code : List Nat) (ip : Nat) : DisResult (Nat × Nat) :=
  if code.length > ip + 3 then
    .ok ((code.get? ip).getD 0 + 256 * (code.get? (ip + 1)).getD 0 +
      65536 * (code.get? (ip + 2)).getD 0 + 16777216 * (code.get? (ip + 3)).getD 0, ip + 4)
  else .error (.tooShort .opRead4)

/-- Operand::modrm: (mod, reg, rm) fields of a ModR/M byte. -/
def Operand.modrm (b : Nat) : Nat × Nat × Nat :=
  (b >>> 6, (b >>> 3) &&& 0b111, b &&& 0b111)

/-- Operand::register (named registerOf to avoid the constructor of the
same name): the eight general registers; anything else is
`unreachable!()` (modelled as `none`). -/
def Operand.registerOf (b : Nat) : Option Reg :=
  match b with
  | 0 => some .EAX
  | 1 => some .ECX
  | 2 => some .EDX
  | 3 => some .EBX
  | 4 => some .ESP
  | 5 => some .EBP
  | 6 => some .ESI
  | 7 => some .EDI
  | _ => none

/-- Operand::maybe_toggle_reg_size: with the operand-size override only
EAX has an AX alias; any other register hits `unreachable!()`. -/
def Operand.maybe_toggle_reg_size (reg : Reg) (toggle_operand_size : Bool) : Option Reg :=
  if toggle_operand_size then
    match reg with
    | .EAX => some .AX
    | _ => none
  else some reg

/-- struct OperandDecodeState (field `prefix` is named pfx here). -/
structure OperandDecodeState where
  pfx : OpPfx
  op : Nat
  modrm : Option Nat
deriving DecidableEq, Repr

/-- OperandDecodeState::initial. -/
def OperandDecodeState.initial (pfx : OpPfx) (op : Nat) : OperandDecodeState :=
  ⟨pfx, op, none⟩

/-- OperandDecodeState::read_modrm: return the cached ModR/M byte, or
read and cache it (advancing the cursor). -/
def OperandDecodeState.read_modrm (st : OperandDecodeState) (code : List Nat) (ip : Nat) :
    DisResult ((Nat × Nat × Nat) × Nat × OperandDecodeState) :=
  match st.modrm with
  | some b => .ok (Operand.modrm b, ip, st)
  | none =>
    if code.length > ip then
      let b := (code.get? ip).getD 0
      .ok (Operand.modrm b, ip + 1, { st with modrm := some b })
    else .error (.tooShort .opReadModrm)

/-- `as i8 as i32` reinterpretation of a byte. -/
def toI8 (n : Nat) : Int :=
  if n % 256 < 128 then ((n % 256 : Nat) : Int) else ((n % 256 : Nat) : Int) - 256

/-- `as i16 as i32` reinterpretation of a u16. -/
def toI16 (n : Nat) : Int :=
  if n % 65536 < 32768 then ((n % 65536 : Nat) : Int) else ((n % 65536 : Nat) : Int) - 65536

/-- `as i32` reinterpretation of a u32. -/
def toI32 (n : Nat) : Int :=
  if n % 4294967296 < 2147483648 then ((n % 4294967296 : Nat) : Int)
  else ((n % 4294967296 : Nat) : Int) - 4294967296

/-- Operand::read_n_32: u16 under the operand-size override else u32,
optionally sign-extended. -/
def Operand.read_n_32 (code : List Nat) (ip : Nat) (toggle_size sign_extend : Bool) :
    DisResult (Operand × Nat) :=
  if toggle_size then
    match Operand.read2 code ip with
    | .error e => .error e
    | .ok (uw, ip2) => .ok (if sign_extend then .imm32s (toI16 uw) else .imm32 uw, ip2)
  else
    match Operand.read4 code ip with
    | .error e => .error e
    | .ok (ud, ip2) => .ok (if sign_extend then .imm32s (toI32 ud) else .imm32 ud, ip2)

/-- Cursor-threading computations: a value of `M a` models a Rust
function taking `(code: &[u8], ip: &mut usize, state: &mut
OperandDecodeState)` and returning `Result<a>`; sequencing two of them
is exactly Rust statement sequencing through the two `&mut`s. -/
def M (a : Type) : Type :=
  List Nat -> Nat -> OperandDecodeState -> DisResult (a × Nat × OperandDecodeState)

/-- A computation that returns a value without touching code or state. -/
def pureM {a : Type} (x : a) : M a := fun _ ip st => .ok (x, ip, st)

/-- A panic (unreachable!/assert!). -/
def failM {a : Type} : M a := fun _ _ _ => .error .fault

/-- Rust `?`-style sequencing of two cursor-threading computations. -/
def bindM {a b : Type} (c : M a) (f : a -> M b) : M b := fun code ip st =>
  match c code ip st with
  | .error e => .error e
  | .ok (x, j, st2) => f x code j st2

/-- Self::read1 lifted into M (state untouched). -/
def read1M : M Nat := fun code ip st =>
  match Operand.read1 code ip with
  | .error e => .error e
  | .ok (v, j) => .ok (v, j, st)

/-- Self::read4 lifted into M (state untouched). -/
def read4M : M Nat := fun code ip st =>
  match Operand.read4 code ip with
  | .error e => .error e
  | .ok (v, j) => .ok (v, j, st)

/-- Self::read_n_32 lifted into M (state untouched). -/
def readN32M (toggle_size sign_extend : Bool) : M Operand := fun code ip st =>
  match Operand.read_n_32 code ip toggle_size sign_extend with
  | .error e => .error e
  | .ok (o, j) => .ok (o, j, st)

/-- state.read_modrm as a computation. -/
def modrmM : M (Nat × Nat × Nat) := fun code ip st => st.read_modrm code ip

/-- Read the current decode state (a Rust borrow of `state`). -/
def getStateM : M OperandDecodeState := fun _ ip st => .ok (st, ip, st)

/-- Lift an Option-valued helper (register/maybe_toggle_reg_size), whose
None is an `unreachable!()` panic. -/
def optM {a : Type} (x : Option a) : M a := fun _ ip st =>
  match x with
  | some v => .ok (v, ip, st)
  | none => .error .fault

/-- Operand::from_bytes as a cursor-threading computation: decode one
operand according to its (addressing-method, operand-type) descriptor.
The unimplemented ModR/M modes (mode 0b00 with rm other than 0b101,
mode 0b10), the `assert!(!toggle_address_size)`, and the other
`unreachable!()` sites are `failM`. -/
def fromBytesM (desc : OperandDef) : M Operand :=
  match desc.method with
  | .E =>
    bindM modrmM fun mrr =>
      match mrr with
      | (mode, _reg, rm) =>
        if mode = 0b00 then
          if rm = 0b101 then
            bindM getStateM fun st2 =>
              if st2.pfx.toggle_address_size then failM
              else bindM read4M fun d =>
                pureM (.memory (MemRef.displacement_only (toI32 d)))
          else failM
        else if mode = 0b01 then
          bindM (optM (Operand.registerOf rm)) fun base =>
            bindM read1M fun d8 =>
              pureM (.memory (MemRef.base_plus_displacement base (toI8 d8)))
        else if mode = 0b11 then
          bindM (optM (Operand.registerOf rm)) fun r =>
            bindM getStateM fun st2 =>
              bindM (optM (Operand.maybe_toggle_reg_size r st2.pfx.toggle_operand_size)) fun r2 =>
                pureM (.register r2)
        else failM
  | .G =>
    bindM modrmM fun mrr =>
      match mrr with
      | (_mode, reg, _rm) =>
        bindM (optM (Operand.registerOf reg)) fun r =>
          bindM getStateM fun st2 =>
            bindM (optM (Operand.maybe_toggle_reg_size r st2.pfx.toggle_operand_size)) fun r2 =>
              pureM (.register r2)
  | .I =>
    match desc.ty with
    | .bs => bindM read1M fun b => pureM (.imm32s (toI8 b))
    | .v => bindM getStateM fun st2 => readN32M st2.pfx.toggle_operand_size false
    | .vs => bindM getStateM fun st2 => readN32M st2.pfx.toggle_operand_size true
    | _ => failM
  | .J =>
    match desc.ty with
    | .bs => bindM read1M fun b => pureM (.imm32s (toI8 b))
    | .v => bindM getStateM fun st2 => readN32M st2.pfx.toggle_operand_size false
    | _ => failM
  | .O =>
    match desc.ty with
    | .v => bindM read4M fun d => pureM (.memory (MemRef.displacement_only (toI32 d)))
    | _ => failM
  | .Z =>
    bindM getStateM fun st2 =>
      bindM (optM (Operand.registerOf (st2.op &&& 0b111))) fun r =>
        pureM (.register r)
  | .imp =>
    match desc.ty with
    | .eAX =>
      bindM getStateM fun st2 =>
        bindM (optM (Operand.maybe_toggle_reg_size .EAX st2.pfx.toggle_operand_size)) fun r =>
          pureM (.register r)
    | .const1 => pureM (.imm32 1)
    | _ => failM

/-- Operand::from_bytes with the original calling convention. -/
def Operand.from_bytes (code : List Nat) (ip : Nat) (desc : OperandDef)
    (st : OperandDecodeState) : DisResult (Operand × Nat × OperandDecodeState) :=
  fromBytesM desc code ip st

/-- struct Instr (disassembled instruction). -/
structure Instr where
  memonic : Memonic
  operands : List Operand
deriving DecidableEq, Repr

/-- Instr::read_op: read the opcode byte; for USE_REG_OPCODES members,
peek (without consuming) the following ModR/M byte's reg field as the
extension, else extension 0. -/
def Instr.read_op (code : List Nat) (ip : Nat) : DisResult ((Nat × Nat) × Nat) :=
  if code.length > ip then
    let op := (code.get? ip).getD 0
    if op ∈ USE_REG_OPCODES then
      if code.length > ip + 1 then
        .ok ((op, (Operand.modrm ((code.get? (ip + 1)).getD 0)).2.1), ip + 1)
      else .error (.tooShort .decodeOpExt)
    else .ok ((op, 0), ip + 1)
  else .error (.tooShort .readOp)

/-- Instr::lookup_op: exact (opcode, extension) lookup, then the
masked-base fallback (op & !0b111 = op & 0xF8, extension 0), else
UnknownOpcode carrying the current cursor. -/
def Instr.lookup_op (op : Nat × Nat) (ip : Nat) : DisResult OpCodeDef :=
  match tableGet op with
  | some d => .ok d
  | none =>
    match tableGet (op.1 &&& 0xF8, 0) with
    | some d => .ok d
    | none => .error (.unknownOpcode ip op)

/-- The operand loop of Instr::decode_one as a computation, threading
the shared OperandDecodeState through the descriptor list. -/
def decodeOperandsM : List OperandDef -> M (List Operand)
  | [] => pureM []
  | d :: ds =>
    bindM (fromBytesM d) fun o =>
      bindM (decodeOperandsM ds) fun os =>
        pureM (o :: os)

/-- The operand loop with the original calling convention. -/
def Instr.decode_operands (code : List Nat) (ds : List OperandDef) (ip : Nat)
    (st : OperandDecodeState) : DisResult (List Operand × Nat × OperandDecodeState) :=
  decodeOperandsM ds code ip st

/-- Instr::decode_one: prefixes, opcode (+extension), table lookup,
operand decode. -/
def Instr.decode_one (code : List Nat) (ip : Nat) : DisResult (Instr × Nat) :=
  match OpPfx.from_bytes code OpPfx.default ip with
  | none => .error .fault
  | some (pfx, ip1) =>
    match Instr.read_op code ip1 with
    | .error e => .error e
    | .ok (op, ip2) =>
      match Instr.lookup_op op ip2 with
      | .error e => .error e
      | .ok desc =>
        match Instr.decode_operands code desc.operands ip2 (OperandDecodeState.initial pfx op.1) with
        | .error e => .error e
        | .ok (ops, ip3, _) => .ok (⟨desc.memonic, ops⟩, ip3)

end I386

namespace VM

/-- Modelled from the spec: the interpreter component
(`Interpreter::interpret`, `ExitInfo`, the register file and the
synthetic memory map of spec section 4.4) is not present under src/;
only its caller in src/apps/show-sh-raw/src/raw_sh_renderer.rs is.
A memory-mapped address holds a read-only constant word, a writable
byte buffer, or a trampoline descriptor (symbol name + arity); symbol
names are represented by numeric identifiers. -/
inductive MemCell where
  | value (v : Nat)
  | writable (bytes : List Nat)
  | trampoline (name : Nat) (arity : Nat)
deriving DecidableEq, Repr

/-- Modelled from the spec: the sparse memory map keyed by virtual
address (spec section 3, InterpreterState). -/
abbrev MemoryMap : Type := List (Nat × MemCell)

/-- Address lookup in the sparse memory map. -/
def lookupCell (mm : MemoryMap) (addr : Nat) : Option MemCell :=
  (mm.find? (fun e => e.1 == addr)).map (fun e => e.2)

/-- Modelled from the spec: the instruction forms of section 4.4 needed
by the trampoline contract - register/imm moves, push against the
implicit stack, and call (dst = 0 selects EAX). -/
inductive VInstr where
  | moveImm (dst : Nat) (v : Nat)
  | push (v : Nat)
  | call (target : Nat)
deriving DecidableEq, Repr

/-- Modelled from the spec: the visible interpreter state - a register
file (EAX suffices for the claim) and the implicit stack region. -/
structure VState where
  eax : Nat
  stack : List Nat
deriving DecidableEq, Repr

/-- Modelled from the spec: ExitInfo with the two terminal outcomes
OutOfInstructions and Trampoline(name, args). -/
inductive ExitInfo where
  | outOfInstructions
  | trampoline (name : Nat) (args : List Nat)
deriving DecidableEq, Repr

/-- Modelled from the spec: `ExitInfo | RuntimeError`. -/
inductive VResult where
  | exit (e : ExitInfo)
  | runtimeError
deriving DecidableEq, Repr

/-- State effect of one non-exiting instruction. -/
def stepState (st : VState) : VInstr → VState
  | .moveImm dst v => if dst = 0 then { st with eax := v } else st
  | .push v => { st with stack := v :: st.stack }
  | .call _ => st

/-- Modelled from the spec: `interpret(instructions, entry_offset,
memory_map)` runs until it falls off the end (OutOfInstructions) or the
instruction pointer reaches a Call whose target is mapped as a
trampoline, in which case it packages the call's visible stack
arguments (arity many) and yields Trampoline(name, args); a call to a
non-trampoline address is a runtime error (UnmappedMemoryAccess).  The
spec gives the interpreter no built-in step limit; the fuel argument is
an artifact of totality and theorems supply enough of it. -/
def interpret (fuel : Nat) (instrs : List VInstr) (mm : MemoryMap) (eip : Nat)
    (st : VState) : VResult :=
  match fuel with
  | 0 => .runtimeError
  | fuel + 1 =>
    match instrs.get? eip with
    | none => .exit .outOfInstructions
    | some i =>
      match i with
      | .call t =>
        match lookupCell mm t with
        | some (.trampoline name arity) => .exit (.trampoline name (st.stack.take arity))
        | _ => .runtimeError
      | _ => interpret fuel instrs mm (eip + 1) (stepState st i)

/-- Call detector for the straight-line hypothesis of the claim. -/
def isCall : VInstr → Bool
  | .call _ => true
  | _ => false

end VM

/-! ## Theorems -/

theorem aux_le_foldl_max (l : List Nat) : ∀ a : Nat, a ≤ l.foldl Nat.max a := by
  induction l with
  | nil => intro a; simp
  | cons y ys ih =>
    intro a
    simpa using le_trans (Nat.le_max_left a y) (ih (Nat.max a y))

theorem aux_mem_le_foldl_max (l : List Nat) : ∀ a i, i ∈ l → i ≤ l.foldl Nat.max a := by
  induction l with
  | nil => intro a i hi; simp at hi
  | cons y ys ih =>
    intro a i hi
    rcases List.mem_cons.mp hi with rfl | hi
    · simpa using le_trans (Nat.le_max_right a i) (aux_le_foldl_max ys (Nat.max a i))
    · simpa using ih (Nat.max a y) i hi

theorem aux_foldl_max_mem (l : List Nat) :
    ∀ a : Nat, l.foldl Nat.max a = a ∨ l.foldl Nat.max a ∈ l := by
  induction l with
  | nil => intro a; simp
  | cons y ys ih =>
    intro a
    rcases ih (Nat.max a y) with h | h
    · have hm : Nat.max a y = a ∨ Nat.max a y = y := max_choice a y
      rcases hm with hm | hm
      · left; simp only [List.foldl_cons] at *; rw [h, hm]
      · right; simp only [List.foldl_cons]; rw [h, hm]; exact List.mem_cons_self _ _
    · right; exact List.mem_cons_of_mem _ (by simpa using h)

theorem aux_foldl_min_le (l : List Nat) : ∀ a : Nat, l.foldl Nat.min a ≤ a := by
  induction l with
  | nil => intro a; simp
  | cons y ys ih =>
    intro a
    simpa using le_trans (ih (Nat.min a y)) (Nat.min_le_left a y)

theorem aux_foldl_min_le_mem (l : List Nat) : ∀ a i, i ∈ l → l.foldl Nat.min a ≤ i := by
  induction l with
  | nil => intro a i hi; simp at hi
  | cons y ys ih =>
    intro a i hi
    rcases List.mem_cons.mp hi with rfl | hi
    · simpa using le_trans (aux_foldl_min_le ys (Nat.min a i)) (Nat.min_le_right a i)
    · simpa using ih (Nat.min a y) i hi

theorem aux_foldl_min_mem (l : List Nat) :
    ∀ a : Nat, l.foldl Nat.min a = a ∨ l.foldl Nat.min a ∈ l := by
  induction l with
  | nil => intro a; simp
  | cons y ys ih =>
    intro a
    rcases ih (Nat.min a y) with h | h
    · have hm : Nat.min a y = a ∨ Nat.min a y = y := min_choice a y
      rcases hm with hm | hm
      · left; simp only [List.foldl_cons] at *; rw [h, hm]
      · right; simp only [List.foldl_cons]; rw [h, hm]; exact List.mem_cons_self _ _
    · right; exact List.mem_cons_of_mem _ (by simpa using h)

/-- C1: every facet record accepted by Facet::from_bytes has its computed
record length equal to 3 + material_size + 1 + index_count*index_size +
(if HAVE_TEXCOORDS then index_count*2*tc_size else 0), where index_count
is the byte at offset 3 + material_size and the three widths are the
flag-dependent sizes stated in the claim. -/
theorem facet_length_formula (data : List Nat) (f : Sh.Facet)
    (h : Sh.Facet.from_bytes data = some f) :
    ∃ ic, data.get? (3 + Sh.material_size_of f.flags) = some ic ∧
      f.length = 3 + Sh.material_size_of f.flags + 1 + ic * Sh.index_size_of f.flags +
        (if f.flags &&& Sh.HAVE_TEXCOORDS ≠ 0 then ic * 2 * Sh.tc_size_of f.flags else 0) := by
  unfold Sh.Facet.from_bytes at h
  split at h
  case h_2 => exact absurd h (by simp)
  rename_i b0 b1 b2 hb0 hb1 hb2
  split at h
  case isFalse => exact absurd h (by simp)
  dsimp only at h
  split at h
  case isFalse => exact absurd h (by simp)
  split at h
  case h_1 => exact absurd h (by simp)
  rename_i ic hic
  split at h
  case h_1 => exact absurd h (by simp)
  case h_2 => exact absurd h (by simp)
  rename_i x xs hinds
  rw [Option.some_inj] at h
  subst h
  refine ⟨ic, ?_, ?_⟩
  · simpa [Sh.material_size_of] using hic
  · simp [Sh.material_size_of, Sh.index_size_of, Sh.tc_size_of]

theorem facet_length_formula_witness :
    ∃ ic, [0xFC, 0, 0, 9, 9, 1, 5].get? (3 + Sh.material_size_of (Sh.Facet.mk 7 0 [5] 5 5).flags) = some ic ∧
      (Sh.Facet.mk 7 0 [5] 5 5).length = 3 + Sh.material_size_of (Sh.Facet.mk 7 0 [5] 5 5).flags + 1 +
        ic * Sh.index_size_of (Sh.Facet.mk 7 0 [5] 5 5).flags +
        (if (Sh.Facet.mk 7 0 [5] 5 5).flags &&& Sh.HAVE_TEXCOORDS ≠ 0 then
          ic * 2 * Sh.tc_size_of (Sh.Facet.mk 7 0 [5] 5 5).flags else 0) :=
  facet_length_formula [0xFC, 0, 0, 9, 9, 1, 5] ⟨7, 0, [5], 5, 5⟩ (by decide)

/-- C9: every Facet value successfully returned by Facet::from_bytes has
a non-empty index list with max_index/min_index the exact extrema of the
indices, and an embedded index-count byte of zero makes from_bytes abort
(the `.max().unwrap()` panics on the empty list, modelled as `none`)
rather than return a record. -/
theorem facet_indices_extrema :
    (∀ (data : List Nat) (f : Sh.Facet), Sh.Facet.from_bytes data = some f →
      f.indices ≠ [] ∧
      f.max_index ∈ f.indices ∧ (∀ i ∈ f.indices, i ≤ f.max_index) ∧
      f.min_index ∈ f.indices ∧ (∀ i ∈ f.indices, f.min_index ≤ i)) ∧
    (∀ data : List Nat,
      data.get? (3 + Sh.material_size_of ((data.getD 1 0 <<< 8) ||| data.getD 2 0)) = some 0 →
      Sh.Facet.from_bytes data = none) := by
  constructor
  · intro data f h
    unfold Sh.Facet.from_bytes at h
    split at h
    case h_2 => exact absurd h (by simp)
    rename_i b0 b1 b2 hb0 hb1 hb2
    split at h
    case isFalse => exact absurd h (by simp)
    dsimp only at h
    split at h
    case isFalse => exact absurd h (by simp)
    split at h
    case h_1 => exact absurd h (by simp)
    rename_i ic hic
    split at h
    case h_1 => exact absurd h (by simp)
    case h_2 => exact absurd h (by simp)
    rename_i x xs hinds
    rw [Option.some_inj] at h
    subst h
    refine ⟨by simp, ?_, ?_, ?_, ?_⟩
    · rcases aux_foldl_max_mem xs x with hm | hm
      · simp [hm]
      · exact List.mem_cons_of_mem _ hm
    · intro i hi
      rcases List.mem_cons.mp hi with rfl | hi
      · exact aux_le_foldl_max xs i
      · exact aux_mem_le_foldl_max xs x i hi
    · rcases aux_foldl_min_mem xs x with hm | hm
      · simp [hm]
      · exact List.mem_cons_of_mem _ hm
    · intro i hi
      rcases List.mem_cons.mp hi with rfl | hi
      · exact aux_foldl_min_le xs i
      · exact aux_foldl_min_le_mem xs x i hi
  · intro data h
    unfold Sh.Facet.from_bytes
    split
    case h_2 => rfl
    rename_i b0 b1 b2 hb0 hb1 hb2
    simp only [List.getD_eq_get?, hb1, hb2, Option.getD_some] at h
    split
    case isFalse => rfl
    dsimp only
    split
    case isFalse => rfl
    rename_i hflags
    rw [show (3 + Sh.material_size_of ((b1 <<< 8) ||| b2)) =
      (3 + if ((b1 <<< 8) ||| b2) &&& Sh.HAVE_MATERIAL ≠ 0 then
        (if ((b1 <<< 8) ||| b2) &&& Sh.USE_SHORT_MATERIAL ≠ 0 then 11 else 14) else 2)
      from rfl] at h
    rw [h]
    simp
    split
    · rfl
    · rfl
    next x xs heq =>
      split at heq <;> simp [List.mapM.loop] at heq

theorem facet_indices_extrema_witness :
    ((Sh.Facet.mk 7 0 [5] 5 5).indices ≠ [] ∧
      (Sh.Facet.mk 7 0 [5] 5 5).max_index ∈ (Sh.Facet.mk 7 0 [5] 5 5).indices ∧
      (∀ i ∈ (Sh.Facet.mk 7 0 [5] 5 5).indices, i ≤ (Sh.Facet.mk 7 0 [5] 5 5).max_index) ∧
      (Sh.Facet.mk 7 0 [5] 5 5).min_index ∈ (Sh.Facet.mk 7 0 [5] 5 5).indices ∧
      (∀ i ∈ (Sh.Facet.mk 7 0 [5] 5 5).indices, (Sh.Facet.mk 7 0 [5] 5 5).min_index ≤ i)) ∧
    Sh.Facet.from_bytes [0xFC, 0, 0, 9, 9, 0] = none :=
  ⟨facet_indices_extrema.1 [0xFC, 0, 0, 9, 9, 1, 5] ⟨7, 0, [5], 5, 5⟩ (by decide),
   facet_indices_extrema.2 [0xFC, 0, 0, 9, 9, 0] (by decide)⟩

theorem aux_ubc_len {d : List Nat} {r : Sh.UnkBC} (h : Sh.UnkBC.from_bytes d = some r) :
    0 < r.length := by
  unfold Sh.UnkBC.from_bytes at h
  repeat' split at h
  all_goals simp_all
  rename_i heq hle
  repeat' split at heq
  all_goals simp_all
  all_goals subst h; simp; omega

theorem aux_u40_len {d : List Nat} {r : Sh.Unk40} (h : Sh.Unk40.from_bytes d = some r) :
    0 < r.length := by
  unfold Sh.Unk40.from_bytes at h
  repeat' split at h
  all_goals simp_all
  all_goals subst h; simp

theorem aux_facet_len {d : List Nat} {r : Sh.Facet} (h : Sh.Facet.from_bytes d = some r) :
    0 < r.length := by
  unfold Sh.Facet.from_bytes at h
  split at h
  case h_2 => exact absurd h (by simp)
  rename_i b0 b1 b2 hb0 hb1 hb2
  split at h
  case isFalse => exact absurd h (by simp)
  dsimp only at h
  split at h
  case isFalse => exact absurd h (by simp)
  split at h
  case h_1 => exact absurd h (by simp)
  rename_i ic hic
  split at h
  case h_1 => exact absurd h (by simp)
  case h_2 => exact absurd h (by simp)
  rename_i x xs hinds
  rw [Option.some_inj] at h
  subst h
  simp

theorem aux_arm_ne_skip : ∀ e ∈ Sh.dispatchTable, ∀ rest, e.2 rest ≠ Sh.Step.skip := by
  intro e he rest h
  fin_cases he <;>
    simp only [Sh.fixedStep, Sh.parseUnkCE, Sh.parseUnkBC, Sh.parseUnkF6, Sh.parseUnk38,
      Sh.parseUnk40, Sh.parseTextureRef, Sh.parseSourceRef, Sh.parseVertexBuf, Sh.parseFacet,
      Sh.parseX86Code] at h <;>
    (split at h <;> simp_all)

theorem aux_arm_ne_trailer : ∀ e ∈ Sh.dispatchTable, ∀ rest sz i, e.2 rest ≠ Sh.Step.trailer sz i := by
  intro e he rest sz i h
  fin_cases he <;>
    simp only [Sh.fixedStep, Sh.parseUnkCE, Sh.parseUnkBC, Sh.parseUnkF6, Sh.parseUnk38,
      Sh.parseUnk40, Sh.parseTextureRef, Sh.parseSourceRef, Sh.parseVertexBuf, Sh.parseFacet,
      Sh.parseX86Code] at h <;>
    (split at h <;> simp_all)

theorem aux_arm_record_pos : ∀ e ∈ Sh.dispatchTable, ∀ rest sz i,
    e.2 rest = Sh.Step.record sz i → 0 < sz := by
  intro e he rest sz i h
  fin_cases he <;>
    simp only [Sh.fixedStep, Sh.parseUnkCE, Sh.parseUnkBC, Sh.parseUnkF6, Sh.parseUnk38,
      Sh.parseUnk40, Sh.parseTextureRef, Sh.parseSourceRef, Sh.parseVertexBuf, Sh.parseFacet,
      Sh.parseX86Code] at h <;>
    (split at h <;>
      simp_all [Sh.UnkCE.size, Sh.UnkBC.size, Sh.UnkF6.size, Sh.Unk38.size, Sh.Unk40.size,
        Sh.TextureRef.size, Sh.SourceRef.size, Sh.VertexBuf.size, Sh.Facet.size,
        Sh.X86Code.size]) <;>
    first
      | omega
      | (rw [← h.1]; exact aux_ubc_len (by assumption))
      | (rw [← h.1]; exact aux_u40_len (by assumption))
      | (rw [← h.1]; exact aux_facet_len (by assumption))

theorem aux_recStep_ne_skip (b : Nat) (rest : List Nat) : Sh.recStepAt b rest ≠ Sh.Step.skip := by
  intro h
  unfold Sh.recStepAt at h
  split at h
  · exact aux_arm_ne_skip _ (List.mem_of_find?_eq_some (by assumption)) rest h
  · split at h <;> simp_all [Sh.TrailerUnknown.from_bytes]

theorem aux_recStep_trailer {b : Nat} {rest : List Nat} {sz : Nat} {i : Sh.Instr}
    (h : Sh.recStepAt b rest = Sh.Step.trailer sz i) : sz = rest.length := by
  unfold Sh.recStepAt at h
  split at h
  · exact absurd h (aux_arm_ne_trailer _ (List.mem_of_find?_eq_some (by assumption)) rest sz i)
  · simp only [Sh.TrailerUnknown.from_bytes, Sh.TrailerUnknown.size] at h
    cases h
    rfl

theorem aux_recStep_pos {b : Nat} {rest : List Nat} {sz : Nat} {i : Sh.Instr}
    (h : Sh.recStepAt b rest = Sh.Step.record sz i) : 0 < sz := by
  unfold Sh.recStepAt at h
  split at h
  · exact aux_arm_record_pos _ (List.mem_of_find?_eq_some (by assumption)) rest sz i h
  · split at h <;> simp_all [Sh.TrailerUnknown.from_bytes]

theorem aux_stepAt_skip {code : List Nat} {offset : Nat}
    (h : Sh.stepAt code offset = Sh.Step.skip) : code.get? offset = some 0x1E := by
  unfold Sh.stepAt at h
  dsimp only at h
  split at h
  · rename_i hb
    have hne : code.drop offset ≠ [] := by
      intro hemp
      rw [hemp] at hb
      simp at hb
    match hrest : code.drop offset with
    | [] => exact absurd hrest hne
    | x :: xs =>
      rw [hrest] at hb
      simp at hb
      have h0 : code.get? offset = some x := by
        have h1 := List.get?_drop code offset 0
        rw [Nat.add_zero] at h1
        rw [← h1, hrest]
        rfl
      rw [h0, hb]
  · exact absurd h (aux_recStep_ne_skip _ _)

theorem aux_stepAt_pos {code : List Nat} {offset sz : Nat} {i : Sh.Instr}
    (h : Sh.stepAt code offset = Sh.Step.record sz i) : 0 < sz := by
  unfold Sh.stepAt at h
  dsimp only at h
  split at h
  · exact absurd h (by simp)
  · exact aux_recStep_pos h

theorem aux_stepAt_trailer {code : List Nat} {offset sz : Nat} {i : Sh.Instr}
    (h : Sh.stepAt code offset = Sh.Step.trailer sz i) : sz = code.length - offset := by
  unfold Sh.stepAt at h
  dsimp only at h
  split at h
  · exact absurd h (by simp)
  · have := aux_recStep_trailer h
    simpa using this

theorem aux_chained_skip {code : List Nat} {offset : Nat} {l : List Sh.SecRec}
    (h1E : code.get? offset = some 0x1E)
    (h : Sh.Chained code (offset + 1) l) : Sh.Chained code offset l := by
  cases l with
  | nil => trivial
  | cons r rest =>
    obtain ⟨ho, hgap, hpos, hrest⟩ := h
    refine ⟨by omega, ?_, hpos, hrest⟩
    intro j hj1 hj2
    rcases Nat.eq_or_lt_of_le hj1 with rfl | hlt
    · exact h1E
    · exact hgap j (by omega) hj2

theorem aux_go_chained (code : List Nat) : ∀ fuel offset l,
    Sh.goReadSections code fuel offset = some l → Sh.Chained code offset l := by
  intro fuel
  induction fuel with
  | zero => intro offset l h; simp [Sh.goReadSections] at h
  | succ n ih =>
    intro offset l h
    unfold Sh.goReadSections at h
    split at h
    case isFalse => exact absurd h (by simp)
    rename_i hlt
    split at h
    case h_1 hstep =>
      exact aux_chained_skip (aux_stepAt_skip hstep) (ih _ _ h)
    case h_2 sz i hstep =>
      rw [Option.map_eq_some'] at h
      obtain ⟨tl, htl, rfl⟩ := h
      refine ⟨le_refl _, fun j hj1 hj2 => absurd (lt_of_le_of_lt hj1 hj2) (by simp), ?_, ih _ _ htl⟩
      show 0 < sz
      exact aux_stepAt_pos hstep
    case h_3 sz i hstep =>
      rw [Option.some_inj] at h
      subst h
      have hsz := aux_stepAt_trailer hstep
      refine ⟨le_refl _, fun j hj1 hj2 => absurd (lt_of_le_of_lt hj1 hj2) (by simp), ?_, trivial⟩
      show 0 < sz
      omega
    case h_4 => exact absurd h (by simp)

theorem aux_find_none {b : Nat} (hmem : b ∉ Sh.knownTags) :
    Sh.dispatchTable.find? (fun e => e.1 == b) = none := by
  cases hf : Sh.dispatchTable.find? (fun e => e.1 == b) with
  | none => rfl
  | some e =>
    exfalso
    have hmem2 := List.mem_of_find?_eq_some hf
    have heq := List.find?_some hf
    apply hmem
    fin_cases hmem2 <;> simp_all [Sh.knownTags]

theorem aux_stepAt_unknown {code : List Nat} {b : Nat} (hb : code.get? 0 = some b)
    (hmem : b ∉ Sh.knownTags) :
    Sh.stepAt code 0 = Sh.Step.trailer code.length (.trailerUnknown ⟨code⟩) := by
  have hb1E : b ≠ 0x1E := by
    intro he
    exact hmem (by rw [he]; decide)
  have hhead : code.headD 0 = b := by
    cases code with
    | nil => simp at hb
    | cons x xs => simp at hb; simp [hb]
  unfold Sh.stepAt
  dsimp only
  rw [List.drop_zero, hhead, if_neg hb1E]
  unfold Sh.recStepAt
  rw [aux_find_none hmem]
  rfl

/-- C2 (amended): a buffer whose first tag byte is not in the known tag
set decodes successfully to exactly one record, a TrailerUnknown
holding the entire buffer; no UnknownRecordTag error exists and nothing
is skipped. -/
theorem unknown_tag_trailer (code : List Nat) (b : Nat)
    (hb : code.get? 0 = some b) (hmem : b ∉ Sh.knownTags) :
    Sh.readSections code = some [⟨0, code.length, .trailerUnknown ⟨code⟩⟩] := by
  have hlen : 0 < code.length := by
    cases code with
    | nil => simp at hb
    | cons x xs => simp
  unfold Sh.readSections
  unfold Sh.goReadSections
  rw [if_pos hlen, aux_stepAt_unknown hb hmem]

/-- C2 counterexample: on the buffer [0x77] (0x77 is not a known tag)
the decoder returns Ok with one TrailerUnknown record rather than any
error, contradicting the claimed UnknownRecordTag failure with zero
records decoded. -/
theorem unknown_tag_claimed_error_cex :
    (0x77 : Nat) ∉ Sh.knownTags ∧
    Sh.readSections [0x77] = some [⟨0, 1, .trailerUnknown ⟨[0x77]⟩⟩] := by
  exact ⟨by decide, by decide⟩

theorem unknown_tag_trailer_witness :
    Sh.readSections [0x99, 0x07] = some [⟨0, 2, .trailerUnknown ⟨[0x99, 0x07]⟩⟩] :=
  unknown_tag_trailer [0x99, 0x07] 0x99 (by decide) (by decide)

/-- C3 (amended): every successfully decoded record sequence is
offset-chained: records appear in strictly increasing offset order with
positive sizes and no overlap, and each record starts exactly at the
previous record's offset plus its size() except that skipped 0x1E
filler bytes may lie in between (every gap byte is 0x1E). -/
theorem record_offsets_chained (code : List Nat) (l : List Sh.SecRec)
    (h : Sh.readSections code = some l) : Sh.Chained code 0 l :=
  aux_go_chained code _ 0 l h

theorem record_offsets_chained_witness :
    Sh.Chained [0x46, 0x00, 0x77] 0
      [⟨0, 2, .fixed 0x46 ⟨[]⟩⟩, ⟨2, 1, .trailerUnknown ⟨[0x77]⟩⟩] :=
  record_offsets_chained [0x46, 0x00, 0x77]
    [⟨0, 2, .fixed 0x46 ⟨[]⟩⟩, ⟨2, 1, .trailerUnknown ⟨[0x77]⟩⟩] (by decide)

/-- C3 counterexample: the buffer 46 00 1E 46 00 77 decodes successfully
but its second record starts at offset 3, not at offset 0 + size 2 of
the first record: the skipped 0x1E byte is a gap between records. -/
theorem record_offsets_tiling_cex :
    Sh.readSections [0x46, 0x00, 0x1E, 0x46, 0x00, 0x77] =
      some [⟨0, 2, .fixed 0x46 ⟨[]⟩⟩, ⟨3, 2, .fixed 0x46 ⟨[]⟩⟩,
        ⟨5, 1, .trailerUnknown ⟨[0x77]⟩⟩] ∧
    (3 : Nat) ≠ 0 + 2 := by
  exact ⟨by decide, by decide⟩

/-- C4 (amended): reaching the end of the code buffer is not an implicit
trailer: the `assert!(offset < pe.code.len())` at the top of the loop
fails (a panic, modelled as `none`) whenever the cursor reaches or
passes the end, so an input whose records exactly tile the buffer makes
the decoder fail rather than terminate successfully. -/
theorem end_of_buffer_asserts (code : List Nat) (fuel offset : Nat)
    (h : code.length ≤ offset) : Sh.goReadSections code fuel offset = none := by
  cases fuel with
  | zero => rfl
  | succ n =>
    unfold Sh.goReadSections
    rw [if_neg (by omega)]

theorem end_of_buffer_asserts_witness :
    Sh.goReadSections [0x46, 0x00] 1 2 = none :=
  end_of_buffer_asserts [0x46, 0x00] 1 2 (by decide)

/-- C4 counterexample: the buffer 46 00 is exactly one well-formed
2-byte record (Unk46), yet the decoder returns `none` (the end-of-loop
assert panics) instead of terminating successfully. -/
theorem end_of_buffer_success_cex :
    Sh.FixedRec.from_bytes 0x46 2 [0x46, 0x00] = some ⟨[]⟩ ∧
    Sh.readSections [0x46, 0x00] = none := by
  exact ⟨by decide, by decide⟩

theorem aux_decode_push (b b0 b1 b2 b3 : Nat)
    (hpfx : b ∉ I386.PREFIX_CODES)
    (hreg : b ∉ I386.USE_REG_OPCODES)
    (hlook : I386.Instr.lookup_op (b, 0) 1 = .ok ⟨.push, [⟨.I, .vs⟩]⟩) :
    I386.Instr.decode_one [b, b0, b1, b2, b3] 0 =
      .ok (⟨.push, [.imm32s (I386.toI32 (b0 + 256 * b1 + 65536 * b2 + 16777216 * b3))]⟩, 5) := by
  unfold I386.Instr.decode_one I386.OpPfx.from_bytes
  rw [List.drop_zero]
  unfold I386.pfxScan
  rw [if_neg hpfx]
  dsimp only
  unfold I386.Instr.read_op
  rw [if_pos (by simp)]
  simp only [List.get?_cons_zero, Option.getD_some, Nat.zero_add]
  rw [if_neg hreg]
  dsimp only
  rw [hlook]
  dsimp only
  rw [show I386.Instr.decode_operands [b, b0, b1, b2, b3] [⟨.I, .vs⟩] 1
      (I386.OperandDecodeState.initial I386.OpPfx.default b) =
    .ok ([.imm32s (I386.toI32 (b0 + 256 * b1 + 65536 * b2 + 16777216 * b3))], 5,
      I386.OperandDecodeState.initial I386.OpPfx.default b) from rfl]

/-- C5: if an (opcode, extension) pair is absent from OPCODE_TABLE but
the base opcode with the low three register-selection bits masked off
(and extension zero) is present, lookup_op resolves to that base entry;
and every opcode byte 0x58+r for r in 0..7 decodes as Pop of the
register encoded in the low three bits. -/
theorem fallback_opcode_lookup :
    (∀ (op ext ip : Nat) (d : I386.OpCodeDef),
      I386.tableGet (op, ext) = none → I386.tableGet (op &&& 0xF8, 0) = some d →
      I386.Instr.lookup_op (op, ext) ip = .ok d) ∧
    (∀ r : Nat, r < 8 → ∃ rg, I386.Operand.registerOf r = some rg ∧
      I386.Instr.decode_one [0x58 + r] 0 = .ok (⟨.pop, [.register rg]⟩, 1)) := by
  constructor
  · intro op ext ip d h1 h2
    unfold I386.Instr.lookup_op
    rw [h1]
    simp [h2]
  · intro r hr
    interval_cases r <;> exact ⟨_, rfl, by decide⟩

theorem fallback_opcode_lookup_witness :
    I386.Instr.lookup_op (0x59, 0) 1 = .ok ⟨.pop, [⟨.Z, .v⟩]⟩ ∧
    (∃ rg, I386.Operand.registerOf 3 = some rg ∧
      I386.Instr.decode_one [0x58 + 3] 0 = .ok (⟨.pop, [.register rg]⟩, 1)) :=
  ⟨fallback_opcode_lookup.1 0x59 0 1 ⟨.pop, [⟨.Z, .v⟩]⟩ (by decide) (by decide),
   fallback_opcode_lookup.2 3 (by decide)⟩

/-- C6 (code bug): the recognized prefix byte 0x26 is in PREFIX_CODES,
so OpPrefix::from_bytes feeds it to OpPrefix::apply, whose catch-all
arm is `unreachable!()` - a reachable panic.  decode_one on [0x26, 0xC3]
therefore panics (fault) instead of decoding the same Return that
[0xC3] alone decodes to, contradicting the claim that recognized
prefixes other than 0x66/0x67 are consumed without error and without
affecting decoding. -/
theorem prefix_byte_panics :
    I386.OpPfx.apply I386.OpPfx.default 0x26 = none ∧
    (0x26 : Nat) ∈ I386.PREFIX_CODES ∧
    I386.Instr.decode_one [0x26, 0xC3] 0 = .error .fault ∧
    I386.Instr.decode_one [0xC3] 0 = .ok (⟨.ret, []⟩, 1) := by
  exact ⟨rfl, by decide, by decide, by decide⟩

/-- C10: the masked-base fallback applies to every opcode byte sharing
a present masked base: each byte b with b & 0xF8 = 0x68 and b ≠ 0x68
(0x69 through 0x6F) decodes via the 0x68 entry to a Push with a single
sign-extended 32-bit immediate operand. -/
theorem masked_base_fallback_push (b : Nat) (hb : b < 256) (hmask : b &&& 0xF8 = 0x68)
    (hne : b ≠ 0x68) (b0 b1 b2 b3 : Nat) :
    I386.Instr.decode_one [b, b0, b1, b2, b3] 0 =
      .ok (⟨.push, [.imm32s (I386.toI32 (b0 + 256 * b1 + 65536 * b2 + 16777216 * b3))]⟩, 5) := by
  have hcases : b = 0x69 ∨ b = 0x6A ∨ b = 0x6B ∨ b = 0x6C ∨ b = 0x6D ∨ b = 0x6E ∨ b = 0x6F := by
    interval_cases b <;> revert hmask hne <;> decide
  rcases hcases with rfl | rfl | rfl | rfl | rfl | rfl | rfl <;>
    exact aux_decode_push _ b0 b1 b2 b3 (by decide) (by decide) (by decide)

theorem masked_base_fallback_push_witness :
    I386.Instr.decode_one [0x6A, 1, 2, 3, 4] 0 =
      .ok (⟨.push, [.imm32s (I386.toI32 (1 + 256 * 2 + 65536 * 3 + 16777216 * 4))]⟩, 5) :=
  masked_base_fallback_push 0x6A (by decide) (by decide) (by decide) 1 2 3 4

theorem aux_read1_ok {code : List Nat} {ip b j : Nat}
    (h : I386.Operand.read1 code ip = .ok (b, j)) : j = ip + 1 ∧ ip < code.length := by
  unfold I386.Operand.read1 at h
  split at h
  · rename_i hlt
    cases h
    exact ⟨rfl, hlt⟩
  · exact absurd h (by simp)

theorem aux_read1_take {code : List Nat} {ip b j : Nat} (m : Nat)
    (h : I386.Operand.read1 code ip = .ok (b, j)) (hm : ip ≤ m) :
    (j ≤ m → I386.Operand.read1 (code.take m) ip = .ok (b, j)) ∧
    (m < j → I386.Operand.read1 (code.take m) ip = .error (.tooShort .opRead1)) := by
  obtain ⟨rfl, hlt⟩ := aux_read1_ok h
  unfold I386.Operand.read1 at h ⊢
  rw [if_pos hlt] at h
  constructor
  · intro hjm
    rw [if_pos (by simp [List.length_take]; omega)]
    rw [List.get?_take (by omega)]
    exact h
  · intro hmj
    rw [if_neg (by simp [List.length_take]; omega)]

theorem aux_read2_ok {code : List Nat} {ip b j : Nat}
    (h : I386.Operand.read2 code ip = .ok (b, j)) : j = ip + 2 ∧ ip + 1 < code.length := by
  unfold I386.Operand.read2 at h
  split at h
  · rename_i hlt
    cases h
    exact ⟨rfl, hlt⟩
  · exact absurd h (by simp)

theorem aux_read2_take {code : List Nat} {ip b j : Nat} (m : Nat)
    (h : I386.Operand.read2 code ip = .ok (b, j)) (hm : ip ≤ m) :
    (j ≤ m → I386.Operand.read2 (code.take m) ip = .ok (b, j)) ∧
    (m < j → I386.Operand.read2 (code.take m) ip = .error (.tooShort .opRead2)) := by
  obtain ⟨rfl, hlt⟩ := aux_read2_ok h
  unfold I386.Operand.read2 at h ⊢
  rw [if_pos hlt] at h
  constructor
  · intro hjm
    rw [if_pos (by simp [List.length_take]; omega)]
    rw [List.get?_take (by omega), List.get?_take (by omega)]
    exact h
  · intro hmj
    rw [if_neg (by simp [List.length_take]; omega)]

theorem aux_read4_ok {code : List Nat} {ip b j : Nat}
    (h : I386.Operand.read4 code ip = .ok (b, j)) : j = ip + 4 ∧ ip + 3 < code.length := by
  unfold I386.Operand.read4 at h
  split at h
  · rename_i hlt
    cases h
    exact ⟨rfl, hlt⟩
  · exact absurd h (by simp)

theorem aux_read4_take {code : List Nat} {ip b j : Nat} (m : Nat)
    (h : I386.Operand.read4 code ip = .ok (b, j)) (hm : ip ≤ m) :
    (j ≤ m → I386.Operand.read4 (code.take m) ip = .ok (b, j)) ∧
    (m < j → I386.Operand.read4 (code.take m) ip = .error (.tooShort .opRead4)) := by
  obtain ⟨rfl, hlt⟩ := aux_read4_ok h
  unfold I386.Operand.read4 at h ⊢
  rw [if_pos hlt] at h
  constructor
  · intro hjm
    rw [if_pos (by simp [List.length_take]; omega)]
    rw [List.get?_take (by omega), List.get?_take (by omega),
      List.get?_take (by omega), List.get?_take (by omega)]
    exact h
  · intro hmj
    rw [if_neg (by simp [List.length_take]; omega)]

/-- Window stability: a successful cursor-threading computation only
depends on the buffer below its final cursor, and truncating the buffer
strictly below that cursor turns the result into a tooShort error. -/
def WS {a : Type} (c : I386.M a) : Prop :=
  ∀ code ip st x j st2, c code ip st = .ok (x, j, st2) →
    ip ≤ j ∧ ∀ m, ip ≤ m →
      (j ≤ m → c (code.take m) ip st = .ok (x, j, st2)) ∧
      (m < j → ∃ ph, c (code.take m) ip st = .error (.tooShort ph))

theorem WS_pureM {a : Type} (x : a) : WS (I386.pureM x) := by
  intro code ip st y j st2 h
  unfold I386.pureM at h ⊢
  cases h
  exact ⟨le_refl _, fun m hm => ⟨fun _ => rfl, fun hmj => absurd hmj (by omega)⟩⟩

theorem WS_failM {a : Type} : WS (I386.failM (a := a)) := by
  intro code ip st y j st2 h
  exact absurd h (by simp [I386.failM])

theorem WS_optM {a : Type} (o : Option a) : WS (I386.optM o) := by
  intro code ip st y j st2 h
  unfold I386.optM at h ⊢
  split at h
  · cases h
    exact ⟨le_refl _, fun m hm => ⟨fun _ => rfl, fun hmj => absurd hmj (by omega)⟩⟩
  · exact absurd h (by simp)

theorem WS_getStateM : WS I386.getStateM := by
  intro code ip st y j st2 h
  unfold I386.getStateM at h ⊢
  cases h
  exact ⟨le_refl _, fun m hm => ⟨fun _ => rfl, fun hmj => absurd hmj (by omega)⟩⟩

theorem WS_read1M : WS I386.read1M := by
  intro code ip st y j st2 h
  unfold I386.read1M at h ⊢
  cases hr : I386.Operand.read1 code ip with
  | error e => rw [hr] at h; exact absurd h (by simp)
  | ok v =>
    obtain ⟨b, j1⟩ := v
    rw [hr] at h
    cases h
    obtain ⟨rfl, -⟩ := aux_read1_ok hr
    refine ⟨by omega, fun m hm => ⟨fun hjm => ?_, fun hmj => ?_⟩⟩
    · rw [(aux_read1_take m hr hm).1 hjm]
    · exact ⟨.opRead1, by rw [(aux_read1_take m hr hm).2 hmj]⟩

theorem WS_read4M : WS I386.read4M := by
  intro code ip st y j st2 h
  unfold I386.read4M at h ⊢
  cases hr : I386.Operand.read4 code ip with
  | error e => rw [hr] at h; exact absurd h (by simp)
  | ok v =>
    obtain ⟨b, j1⟩ := v
    rw [hr] at h
    cases h
    obtain ⟨rfl, -⟩ := aux_read4_ok hr
    refine ⟨by omega, fun m hm => ⟨fun hjm => ?_, fun hmj => ?_⟩⟩
    · rw [(aux_read4_take m hr hm).1 hjm]
    · exact ⟨.opRead4, by rw [(aux_read4_take m hr hm).2 hmj]⟩

theorem WS_readN32M (ts se : Bool) : WS (I386.readN32M ts se) := by
  intro code ip st y j st2 h
  unfold I386.readN32M at h ⊢
  cases hr : I386.Operand.read_n_32 code ip ts se with
  | error e => rw [hr] at h; exact absurd h (by simp)
  | ok v =>
    obtain ⟨o, j1⟩ := v
    rw [hr] at h
    cases h
    unfold I386.Operand.read_n_32 at hr ⊢
    split at hr
    · rename_i hts
      cases hr2 : I386.Operand.read2 code ip with
      | error e => rw [hr2] at hr; exact absurd hr (by simp)
      | ok v2 =>
        obtain ⟨uw, j2⟩ := v2
        rw [hr2] at hr
        cases hr
        obtain ⟨rfl, -⟩ := aux_read2_ok hr2
        refine ⟨by omega, fun m hm => ⟨fun hjm => ?_, fun hmj => ?_⟩⟩
        · rw [if_pos hts, (aux_read2_take m hr2 hm).1 hjm]
        · exact ⟨.opRead2, by rw [if_pos hts, (aux_read2_take m hr2 hm).2 hmj]⟩
    · rename_i hts
      cases hr4 : I386.Operand.read4 code ip with
      | error e => rw [hr4] at hr; exact absurd hr (by simp)
      | ok v4 =>
        obtain ⟨ud, j4⟩ := v4
        rw [hr4] at hr
        cases hr
        obtain ⟨rfl, -⟩ := aux_read4_ok hr4
        refine ⟨by omega, fun m hm => ⟨fun hjm => ?_, fun hmj => ?_⟩⟩
        · rw [if_neg hts, (aux_read4_take m hr4 hm).1 hjm]
        · exact ⟨.opRead4, by rw [if_neg hts, (aux_read4_take m hr4 hm).2 hmj]⟩

theorem WS_modrmM : WS I386.modrmM := by
  intro code ip st y j st2 h
  unfold I386.modrmM at h ⊢
  unfold I386.OperandDecodeState.read_modrm at h ⊢
  split at h
  · cases h
    exact ⟨le_refl _, fun m hm => ⟨fun _ => rfl, fun hmj => absurd hmj (by omega)⟩⟩
  · split at h
    · rename_i hnone hlt
      cases h
      refine ⟨by omega, fun m hm => ⟨fun hjm => ?_, fun hmj => ?_⟩⟩
      · rw [if_pos (by simp [List.length_take]; omega)]
        rw [List.get?_take (by omega)]
      · exact ⟨.opReadModrm, by rw [if_neg (by simp [List.length_take]; omega)]⟩
    · exact absurd h (by simp)

theorem WS_bindM {a b : Type} {c : I386.M a} {f : a → I386.M b}
    (hc : WS c) (hf : ∀ x, WS (f x)) : WS (I386.bindM c f) := by
  intro code ip st y j st2 h
  unfold I386.bindM at h ⊢
  cases hcr : c code ip st with
  | error e => rw [hcr] at h; exact absurd h (by simp)
  | ok v =>
    obtain ⟨x, j1, st1⟩ := v
    rw [hcr] at h
    obtain ⟨hle1, htake1⟩ := hc code ip st x j1 st1 hcr
    obtain ⟨hle2, htake2⟩ := hf x code j1 st1 y j st2 h
    refine ⟨by omega, fun m hm => ⟨fun hjm => ?_, fun hmj => ?_⟩⟩
    · rw [(htake1 m hm).1 (by omega)]
      exact (htake2 m (by omega)).1 hjm
    · by_cases hj1m : j1 ≤ m
      · obtain ⟨ph, hph⟩ := (htake2 m hj1m).2 hmj
        refine ⟨ph, ?_⟩
        rw [(htake1 m hm).1 hj1m]
        exact hph
      · obtain ⟨ph, hph⟩ := (htake1 m hm).2 (by omega)
        refine ⟨ph, ?_⟩
        rw [hph]

theorem WS_ite {a : Type} {P : Prop} [Decidable P] {c1 c2 : I386.M a}
    (h1 : WS c1) (h2 : WS c2) : WS (if P then c1 else c2) := by
  by_cases hp : P
  · rw [if_pos hp]; exact h1
  · rw [if_neg hp]; exact h2

theorem WS_fromBytes (desc : I386.OperandDef) : WS (I386.fromBytesM desc) := by
  obtain ⟨method, ty⟩ := desc
  cases method <;> unfold I386.fromBytesM <;> dsimp only
  case E =>
    apply WS_bindM WS_modrmM
    intro mrr
    obtain ⟨mode, reg, rm⟩ := mrr
    dsimp only
    apply WS_ite
    · apply WS_ite
      · apply WS_bindM WS_getStateM
        intro st2
        apply WS_ite
        · exact WS_failM
        · exact WS_bindM WS_read4M (fun d => WS_pureM _)
      · exact WS_failM
    apply WS_ite
    · apply WS_bindM (WS_optM _)
      intro base
      exact WS_bindM WS_read1M (fun d8 => WS_pureM _)
    apply WS_ite
    · apply WS_bindM (WS_optM _)
      intro r
      apply WS_bindM WS_getStateM
      intro st2
      exact WS_bindM (WS_optM _) (fun r2 => WS_pureM _)
    · exact WS_failM
  case G =>
    apply WS_bindM WS_modrmM
    intro mrr
    obtain ⟨mode, reg, rm⟩ := mrr
    dsimp only
    apply WS_bindM (WS_optM _)
    intro r
    apply WS_bindM WS_getStateM
    intro st2
    exact WS_bindM (WS_optM _) (fun r2 => WS_pureM _)
  case I =>
    cases ty <;> dsimp only
    case bs => exact WS_bindM WS_read1M (fun b => WS_pureM _)
    case v => exact WS_bindM WS_getStateM (fun st2 => WS_readN32M _ _)
    case vs => exact WS_bindM WS_getStateM (fun st2 => WS_readN32M _ _)
    all_goals exact WS_failM
  case J =>
    cases ty <;> dsimp only
    case bs => exact WS_bindM WS_read1M (fun b => WS_pureM _)
    case v => exact WS_bindM WS_getStateM (fun st2 => WS_readN32M _ _)
    all_goals exact WS_failM
  case O =>
    cases ty <;> dsimp only
    case v => exact WS_bindM WS_read4M (fun d => WS_pureM _)
    all_goals exact WS_failM
  case Z =>
    apply WS_bindM WS_getStateM
    intro st2
    exact WS_bindM (WS_optM _) (fun r => WS_pureM _)
  case imp =>
    cases ty <;> dsimp only
    case eAX =>
      apply WS_bindM WS_getStateM
      intro st2
      exact WS_bindM (WS_optM _) (fun r => WS_pureM _)
    case const1 => exact WS_pureM _
    all_goals exact WS_failM

theorem WS_decodeOperands (ds : List I386.OperandDef) : WS (I386.decodeOperandsM ds) := by
  induction ds with
  | nil => exact WS_pureM _
  | cons d rest ih =>
    unfold I386.decodeOperandsM
    apply WS_bindM (WS_fromBytes d)
    intro o
    exact WS_bindM ih (fun os => WS_pureM _)

theorem aux_pfx_bound : ∀ (l : List Nat) (p : I386.OpPfx) (ip : Nat) (q : I386.OpPfx) (j : Nat),
    I386.pfxScan p l ip = some (q, j) → ip ≤ j ∧ j ≤ ip + l.length := by
  intro l
  induction l with
  | nil =>
    intro p ip q j h
    unfold I386.pfxScan at h
    cases h
    simp
  | cons b rest ih =>
    intro p ip q j h
    unfold I386.pfxScan at h
    split at h
    · cases happ : I386.OpPfx.apply p b with
      | none => rw [happ] at h; exact absurd h (by simp)
      | some p2 =>
        rw [happ] at h
        have := ih p2 (ip + 1) q j h
        simp only [List.length_cons]
        omega
    · cases h
      simp

theorem aux_pfx_take_ge : ∀ (l : List Nat) (p : I386.OpPfx) (ip : Nat) (q : I386.OpPfx) (j k : Nat),
    I386.pfxScan p l ip = some (q, j) → j - ip ≤ k →
    I386.pfxScan p (l.take k) ip = some (q, j) := by
  intro l
  induction l with
  | nil =>
    intro p ip q j k h hk
    simpa using h
  | cons b rest ih =>
    intro p ip q j k h hk
    unfold I386.pfxScan at h
    split at h
    · rename_i hbmem
      cases happ : I386.OpPfx.apply p b with
      | none => rw [happ] at h; exact absurd h (by simp)
      | some p2 =>
        rw [happ] at h
        obtain ⟨hb1, -⟩ := aux_pfx_bound rest p2 (ip + 1) q j h
        cases k with
        | zero => omega
        | succ k2 =>
          rw [List.take_succ_cons]
          unfold I386.pfxScan
          rw [if_pos hbmem, happ]
          exact ih p2 (ip + 1) q j k2 h (by omega)
    · rename_i hbmem
      cases h
      cases k with
      | zero => rfl
      | succ k2 =>
        rw [List.take_succ_cons]
        unfold I386.pfxScan
        rw [if_neg hbmem]

theorem aux_pfx_take_lt : ∀ (l : List Nat) (p : I386.OpPfx) (ip : Nat) (q : I386.OpPfx) (j k : Nat),
    I386.pfxScan p l ip = some (q, j) → k < j - ip →
    ∃ q2, I386.pfxScan p (l.take k) ip = some (q2, ip + k) := by
  intro l
  induction l with
  | nil =>
    intro p ip q j k h hk
    unfold I386.pfxScan at h
    cases h
    omega
  | cons b rest ih =>
    intro p ip q j k h hk
    unfold I386.pfxScan at h
    split at h
    · rename_i hbmem
      cases happ : I386.OpPfx.apply p b with
      | none => rw [happ] at h; exact absurd h (by simp)
      | some p2 =>
        rw [happ] at h
        cases k with
        | zero => exact ⟨p, by simp [I386.pfxScan]⟩
        | succ k2 =>
          obtain ⟨q2, hq2⟩ := ih p2 (ip + 1) q j k2 h (by omega)
          refine ⟨q2, ?_⟩
          rw [List.take_succ_cons]
          unfold I386.pfxScan
          rw [if_pos hbmem, happ]
          dsimp only
          rw [show ip + (k2 + 1) = ip + 1 + k2 from by omega]
          exact hq2
    · cases h
      omega

theorem aux_read_op_ok {code : List Nat} {ip : Nat} {oe : Nat × Nat} {j : Nat}
    (h : I386.Instr.read_op code ip = .ok (oe, j)) : j = ip + 1 ∧ ip < code.length := by
  unfold I386.Instr.read_op at h
  split at h
  · rename_i hlt
    dsimp only at h
    split at h
    · split at h
      · cases h
        exact ⟨rfl, hlt⟩
      · exact absurd h (by simp)
    · cases h
      exact ⟨rfl, hlt⟩
  · exact absurd h (by simp)

theorem aux_read_op_short {code : List Nat} {ip : Nat} (h : code.length ≤ ip) :
    I386.Instr.read_op code ip = .error (.tooShort .readOp) := by
  unfold I386.Instr.read_op
  rw [if_neg (by omega)]

theorem aux_read_op_take {code : List Nat} {ip : Nat} {oe : Nat × Nat} {j : Nat} (m : Nat)
    (h : I386.Instr.read_op code ip = .ok (oe, j)) (hm : ip < m) :
    I386.Instr.read_op (code.take m) ip = .ok (oe, j) ∨
    I386.Instr.read_op (code.take m) ip = .error (.tooShort .decodeOpExt) := by
  obtain ⟨rfl, hlt⟩ := aux_read_op_ok h
  unfold I386.Instr.read_op at h ⊢
  rw [if_pos hlt] at h
  rw [if_pos (by simp [List.length_take]; omega)]
  rw [List.get?_take hm]
  dsimp only at h ⊢
  by_cases hreg : ((code.get? ip).getD 0) ∈ I386.USE_REG_OPCODES
  · rw [if_pos hreg] at h ⊢
    split at h
    · rename_i hlt2
      cases h
      by_cases hm2 : ip + 1 < m
      · left
        rw [if_pos (by simp [List.length_take]; omega)]
        rw [List.get?_take hm2]
      · right
        rw [if_neg (by simp [List.length_take]; omega)]
    · exact absurd h (by simp)
  · rw [if_neg hreg] at h ⊢
    cases h
    left
    rfl

/-- C7: if a successfully decodable instruction is truncated anywhere
strictly before its end (at or after the decode start), decode_one on
the truncated buffer returns a TooShort error carrying the phase of the
read that ran out, rather than panicking, reading out of bounds, or
mis-decoding: every opcode, ModR/M and operand read is bounds-checked. -/
theorem truncated_decode_tooShort (code : List Nat) (ip m : Nat) (instr : I386.Instr) (ip2 : Nat)
    (hok : I386.Instr.decode_one code ip = .ok (instr, ip2))
    (h1 : ip ≤ m) (h2 : m < ip2) :
    ∃ ph, I386.Instr.decode_one (code.take m) ip = .error (.tooShort ph) := by
  unfold I386.Instr.decode_one I386.OpPfx.from_bytes at hok ⊢
  cases hp : I386.pfxScan I386.OpPfx.default (code.drop ip) ip with
  | none => rw [hp] at hok; exact absurd hok (by simp)
  | some pr =>
    obtain ⟨pfx, jp⟩ := pr
    rw [hp] at hok
    dsimp only at hok
    obtain ⟨hjp1, hjp2⟩ := aux_pfx_bound _ _ _ _ _ hp
    cases hro : I386.Instr.read_op code jp with
    | error e => rw [hro] at hok; exact absurd hok (by simp)
    | ok oej =>
      obtain ⟨oe, jo⟩ := oej
      rw [hro] at hok
      dsimp only at hok
      obtain ⟨rfl, hjlen⟩ := aux_read_op_ok hro
      rw [List.drop_take m ip code]
      by_cases hmjp : m ≤ jp
      · rcases Nat.lt_or_ge m jp with hlt | hge
        · obtain ⟨q2, hq2⟩ := aux_pfx_take_lt _ _ _ _ _ (m - ip) hp (by omega)
          rw [show ip + (m - ip) = m from by omega] at hq2
          refine ⟨.readOp, ?_⟩
          rw [hq2]
          dsimp only
          rw [aux_read_op_short (by rw [List.length_take]; exact le_trans (Nat.min_le_left _ _) (by omega))]
        · have hq2 := aux_pfx_take_ge _ _ _ _ _ (m - ip) hp (by omega)
          refine ⟨.readOp, ?_⟩
          rw [hq2]
          dsimp only
          rw [aux_read_op_short (by rw [List.length_take]; exact le_trans (Nat.min_le_left _ _) (by omega))]
      · push_neg at hmjp
        have hq2 := aux_pfx_take_ge _ _ _ _ _ (m - ip) hp (by omega)
        rcases aux_read_op_take m hro hmjp with hro2 | hro2
        · cases hlo : I386.Instr.lookup_op oe (jp + 1) with
          | error e => rw [hlo] at hok; exact absurd hok (by simp)
          | ok desc =>
            rw [hlo] at hok
            dsimp only at hok
            unfold I386.Instr.decode_operands at hok
            cases hdo : I386.decodeOperandsM desc.operands code (jp + 1)
                (I386.OperandDecodeState.initial pfx oe.1) with
            | error e => rw [hdo] at hok; exact absurd hok (by simp)
            | ok r3 =>
              obtain ⟨ops, j3, st3⟩ := r3
              rw [hdo] at hok
              dsimp only at hok
              cases hok
              have hws := WS_decodeOperands desc.operands code (jp + 1)
                (I386.OperandDecodeState.initial pfx oe.1) ops _ st3 hdo
              obtain ⟨ph, hph⟩ := (hws.2 m (by omega)).2 (by omega)
              refine ⟨ph, ?_⟩
              rw [hq2]
              dsimp only
              rw [hro2]
              dsimp only
              rw [hlo]
              dsimp only
              unfold I386.Instr.decode_operands
              rw [hph]
        · refine ⟨.decodeOpExt, ?_⟩
          rw [hq2]
          dsimp only
          rw [hro2]

theorem truncated_decode_tooShort_witness :
    I386.Instr.decode_one [0xE8, 1, 2, 3, 4] 0 = .ok (⟨.call, [.imm32 (1 + 256 * 2 + 65536 * 3 + 16777216 * 4)]⟩, 5) ∧
    (∃ ph, I386.Instr.decode_one ([0xE8, 1, 2, 3, 4].take 2) 0 = .error (.tooShort ph)) :=
  ⟨by decide,
   truncated_decode_tooShort [0xE8, 1, 2, 3, 4] 0 2 ⟨.call, [.imm32 (1 + 256 * 2 + 65536 * 3 + 16777216 * 4)]⟩ 5
     (by decide) (by decide) (by decide)⟩

theorem aux_interp_shift (mm : VM.MemoryMap) (i : VM.VInstr) :
    ∀ (fuel : Nat) (l : List VM.VInstr) (e : Nat) (s : VM.VState),
    VM.interpret fuel (i :: l) mm (e + 1) s = VM.interpret fuel l mm e s := by
  intro fuel
  induction fuel with
  | zero => intro l e s; rfl
  | succ f ih =>
    intro l e s
    unfold VM.interpret
    rw [List.get?_cons_succ]
    cases hg : l.get? e with
    | none => rfl
    | some j =>
      cases j with
      | call t => rfl
      | moveImm dst v => exact ih l (e + 1) _
      | push v => exact ih l (e + 1) _

theorem aux_interp_run (t name arity : Nat) (mm : VM.MemoryMap)
    (hmap : VM.lookupCell mm t = some (.trampoline name arity)) :
    ∀ (body : List VM.VInstr) (st : VM.VState) (fuel : Nat), body.length < fuel →
    (∀ i ∈ body, VM.isCall i = false) →
    ∃ args, VM.interpret fuel (body ++ [.call t]) mm 0 st = .exit (.trampoline name args) := by
  intro body
  induction body with
  | nil =>
    intro st fuel hfuel hbody
    cases fuel with
    | zero => omega
    | succ f =>
      refine ⟨st.stack.take arity, ?_⟩
      unfold VM.interpret
      simp only [List.nil_append, List.get?_cons_zero]
      rw [hmap]
  | cons i rest ih =>
    intro st fuel hfuel hbody
    cases fuel with
    | zero => simp at hfuel
    | succ f =>
      have hcall : VM.isCall i = false := hbody i (List.mem_cons_self _ _)
      have hrest : ∀ j ∈ rest, VM.isCall j = false :=
        fun j hj => hbody j (List.mem_cons_of_mem _ hj)
      obtain ⟨args, hargs⟩ := ih (VM.stepState st i) f (by simp at hfuel ⊢; omega) hrest
      refine ⟨args, ?_⟩
      unfold VM.interpret
      simp only [List.cons_append, List.get?_cons_zero]
      cases i with
      | call t2 => simp [VM.isCall] at hcall
      | moveImm dst v =>
        rw [aux_interp_shift]
        exact hargs
      | push v =>
        rw [aux_interp_shift]
        exact hargs

/-- C8 (spec-modelled): on an instruction sequence ending in a Call
whose target address is mapped as a trampoline, interpret returns
Trampoline(name, args) with the name of the thunk-table entry for that
address, and re-invoking interpret at the instruction following the
call - with any caller-set register state (e.g. EAX) - completes with
OutOfInstructions, without re-triggering the same trampoline. -/
theorem interpreter_trampoline_roundtrip (body : List VM.VInstr) (t name arity : Nat)
    (mm : VM.MemoryMap) (st : VM.VState) (fuel : Nat)
    (hbody : ∀ i ∈ body, VM.isCall i = false)
    (hmap : VM.lookupCell mm t = some (.trampoline name arity))
    (hfuel : body.length < fuel) :
    (∃ args, VM.interpret fuel (body ++ [.call t]) mm 0 st = .exit (.trampoline name args)) ∧
    (∀ (st2 : VM.VState) (fuel2 : Nat), 0 < fuel2 →
      VM.interpret fuel2 (body ++ [.call t]) mm (body.length + 1) st2 =
        .exit .outOfInstructions) := by
  constructor
  · exact aux_interp_run t name arity mm hmap body st fuel hfuel hbody
  · intro st2 fuel2 hf2
    cases fuel2 with
    | zero => omega
    | succ f2 =>
      unfold VM.interpret
      rw [List.get?_eq_none.mpr (by simp)]

theorem interpreter_trampoline_roundtrip_witness :
    (∃ args, VM.interpret 2 ([VM.VInstr.push 5] ++ [.call 0xAA]) [(0xAA, .trampoline 7 1)] 0
      ⟨0, []⟩ = .exit (.trampoline 7 args)) ∧
    (∀ (st2 : VM.VState) (fuel2 : Nat), 0 < fuel2 →
      VM.interpret fuel2 ([VM.VInstr.push 5] ++ [.call 0xAA]) [(0xAA, .trampoline 7 1)]
        ([VM.VInstr.push 5].length + 1) st2 = .exit .outOfInstructions) :=
  interpreter_trampoline_roundtrip [.push 5] 0xAA 7 1 [(0xAA, .trampoline 7 1)] ⟨0, []⟩ 2
    (by decide) (by decide) (by decide)
